import Mathlib

/-!
# Dual writer, mode 2

A shallow embedding of `pkg/apiserver/rest/dualwriter_mode2.go`.

* A `runtime.Object` is an `Option Object` (`none` is the nil interface value).
* An `error` is an `Option Err` (`none` is the nil error).
* The two backing stores are external collaborators: a `Store` gives, for each
  method, the values that the store answers when the method is invoked.  The
  stores answer with values of their own and do not write through the
  arguments they are handed.
* Every store invocation and every metrics record is appended to a `Trace`, so
  that "is never invoked" and "records outcome" are statements about the trace.
* In-place writes through a meta accessor (`SetResourceVersion`) are modelled by
  returning the rewritten object.
-/

/-- Identity and bookkeeping metadata of a resource object (`metav1.ObjectMeta`). -/
structure ObjectMeta where
  name : String
  uid : String
  resourceVersion : String
  labels : List (String × String)
  annotations : List (String × String)
deriving DecidableEq, Repr

/-- A resource object: optional identity metadata and a resource-specific payload.
`metadata = none` is an object that does not implement the metadata interfaces. -/
structure Resource where
  metadata : Option ObjectMeta
  spec : String
deriving DecidableEq, Repr

/-- The `metav1.ListMeta` of a list object. -/
structure ListMeta where
  resourceVersion : String
  continueToken : String
deriving DecidableEq, Repr

/-- A non-nil `runtime.Object`: a single resource or a list container. -/
inductive Object where
  | resource (r : Resource)
  | list (listMeta : ListMeta) (items : List Resource)
deriving DecidableEq, Repr

/-- A non-nil Go `error`; `notFound` is what `apierrors.IsNotFound` reports. -/
structure Err where
  notFound : Bool
  msg : String
deriving DecidableEq, Repr

/-- The two stores behind the dual writer. -/
inductive StoreId where
  | legacy
  | storage
deriving DecidableEq, Repr

/-- The store methods the dual writer invokes. -/
inductive Method where
  | create
  | get
  | list
  | update
  | delete
  | deleteCollection
deriving DecidableEq, Repr

/-- An observable effect of an operation: a store invocation or a metrics record. -/
inductive Event where
  | call (s : StoreId) (m : Method)
  | legacyDuration (isError : Bool) (mode resource method : String)
  | storageDuration (isError : Bool) (mode resource method : String)
  | outcome (mode name : String) (areEqual : Bool) (method : String)
deriving DecidableEq, Repr

abbrev Trace := List Event

abbrev Items := List Resource

/-- The index built by `parseList`, a Go `map[string]int`: the binding found
first for a key is the one written last. -/
abbrev IndexMap := List (String × Nat)

/-- The answers of a backing store (`LegacyStorage` / `Storage`), one per method. -/
structure Store where
  create : Option Object → Option Object × Option Err
  get : String → Option Object × Option Err
  list : Option Object × Option Err
  update : String → Option Object → Bool → Option Object × Bool × Option Err
  delete : String → Option Object × Bool × Option Err
  deleteCollection : Option Object × Option Err

/-- The dual-writer handle. -/
structure DualWriterMode2 where
  Legacy : Store
  Storage : Store
  resource : String

/-- What `Create`, `Get`, `List` and `DeleteCollection` hand back, with the effects. -/
structure Ret where
  obj : Option Object
  err : Option Err
  trace : Trace
deriving DecidableEq, Repr

/-- What `Delete` and `Update` hand back (the flag is `async` / `created`). -/
structure RetFlag where
  obj : Option Object
  flag : Bool
  err : Option Err
  trace : Trace
deriving DecidableEq, Repr

def mode2Str : String := "2"

def IsNotFound (err : Err) : Bool := err.notFound

/-- The error of `meta.Accessor` for an object without metadata. -/
def errNotObject : Err := ⟨false, "object does not implement the Object interfaces"⟩

/-- The error of `meta.ExtractList` / `meta.SetList` for an object that is no list. -/
def errNotList : Err := ⟨false, "object does not implement the List interfaces"⟩

/-- The `meta.Accessor` of an object: its metadata, or an error when the object
is nil, a list, or a resource without metadata. -/
def Accessor : Option Object → Except Err ObjectMeta
  | some (.resource ⟨some m, _⟩) => .ok m
  | _ => .error errNotObject

/-- Modelled from the spec: `utils.MetaAccessor` (declared outside the given
sources) reads and writes Name, UID, ResourceVersion, Labels, Annotations and
fails with an accessor error if the object does not carry identity metadata. -/
def MetaAccessor (obj : Option Object) : Except Err ObjectMeta := Accessor obj

/-- Writing through an accessor: the object with its metadata replaced. -/
def SetMeta (obj : Option Object) (m : ObjectMeta) : Option Object :=
  match obj with
  | some (.resource r) => some (.resource { r with metadata := some m })
  | o => o

/-- Modelled from the spec: `getName` (declared outside the given sources) is
the name read through the accessor, and the empty string for an object that
carries no identity metadata. -/
def getName (o : Option Object) : String :=
  match Accessor o with
  | .ok m => m.name
  | .error _ => ""

/-- The name `getName` reads from an item of an extracted list. -/
def itemName (r : Resource) : String := getName (some (.resource r))

/-- The ResourceVersion an accessor reads from an object, when it has one. -/
def GetResourceVersion (o : Option Object) : Option String :=
  match Accessor o with
  | .ok m => some m.resourceVersion
  | .error _ => none

/-- The items of a list object (`meta.ExtractList`), an error for anything else. -/
def ExtractList : Option Object → Except Err Items
  | some (.list _ items) => .ok items
  | _ => .error errNotList

/-- Re-pack items into a list container (`meta.SetList`): only `Items` changes. -/
def SetList : Option Object → Items → Option Object × Option Err
  | some (.list lm _), items => (some (.list lm items), none)
  | o, _ => (o, some errNotList)

def updateRV (storageObj legacyObj : Option Object) : Option Object × Option Err :=
  match MetaAccessor storageObj with
  | .error e => (legacyObj, some e)
  | .ok storageAccessor =>
    match MetaAccessor legacyObj with
    | .error e => (legacyObj, some e)
    | .ok legacyAccessor =>
      (SetMeta legacyObj { legacyAccessor with resourceVersion := storageAccessor.resourceVersion }, none)

def parseListFrom : Nat → Items → IndexMap → Except Err IndexMap
  | _, [], indexMap => .ok indexMap
  | i, obj :: rest, indexMap =>
    match MetaAccessor (some (.resource obj)) with
    | .error e => .error e
    | .ok accessor => parseListFrom (i + 1) rest ((accessor.name, i) :: indexMap)

def parseList (legacyList : Items) : Except Err IndexMap :=
  parseListFrom 0 legacyList []

/-- The error `Create` builds for an input that carries a UID. -/
def errUID (uid : String) : Err := ⟨false, "there is an UID and it should not: " ++ uid⟩

/-- Writes to LegacyStorage and Storage (`DualWriterMode2.Create`). -/
def DualWriterMode2.Create (Compare : Option Object → Option Object → Bool)
    (d : DualWriterMode2) (inObj : Option Object) : Ret :=
  let method := "create"
  let rLegacy := d.Legacy.create inObj
  let createdFromLegacy := rLegacy.1
  let t0 : Trace := [Event.call .legacy .create]
  match rLegacy.2 with
  | some err =>
    ⟨createdFromLegacy, some err, t0 ++ [Event.legacyDuration true mode2Str d.resource method]⟩
  | none =>
    let t1 := t0 ++ [Event.legacyDuration false mode2Str d.resource method]
    match Accessor inObj with
    | .error err => ⟨createdFromLegacy, some err, t1⟩
    | .ok accIn =>
      if accIn.uid ≠ "" then
        ⟨none, some (errUID accIn.uid), t1⟩
      else
        let rStorage := d.Storage.create inObj
        let createdFromStorage := rStorage.1
        let t2 := t1 ++ [Event.call .storage .create]
        match rStorage.2 with
        | some err =>
          ⟨createdFromStorage, some err,
            t2 ++ [Event.storageDuration true mode2Str d.resource method]⟩
        | none =>
          let areEqual := Compare createdFromStorage createdFromLegacy
          ⟨createdFromLegacy, none,
            t2 ++ [Event.storageDuration false mode2Str d.resource method,
                   Event.outcome mode2Str (getName createdFromStorage) areEqual method]⟩

/-- Reads Storage, then Legacy, and returns the Legacy object (`DualWriterMode2.Get`). -/
def DualWriterMode2.Get (Compare : Option Object → Option Object → Bool)
    (d : DualWriterMode2) (name : String) : Ret :=
  let method := "get"
  let rStorage := d.Storage.get name
  let objStorage := rStorage.1
  let t1 : Trace :=
    [Event.call .storage .get,
     Event.storageDuration rStorage.2.isSome mode2Str d.resource method]
  if (match rStorage.2 with
      | some err => !IsNotFound err
      | none => false) then
    ⟨objStorage, rStorage.2, t1⟩
  else
    let rLegacy := d.Legacy.get name
    let objLegacy := rLegacy.1
    let t2 := t1 ++ [Event.call .legacy .get]
    match rLegacy.2 with
    | some err =>
      ⟨objLegacy, some err, t2 ++ [Event.legacyDuration true mode2Str d.resource method]⟩
    | none =>
      let areEqual := Compare objStorage objLegacy
      let t3 := t2 ++ [Event.legacyDuration false mode2Str d.resource method,
                       Event.outcome mode2Str name areEqual method]
      let objLegacy1 := if objStorage.isSome then (updateRV objStorage objLegacy).1 else objLegacy
      let objLegacy2 := if objStorage.isSome then (updateRV objStorage objLegacy1).1 else objLegacy1
      ⟨objLegacy2, none, t3⟩

/-- One turn of the loop of `List` over the Storage items: a Storage item whose
name is in the Legacy index is written into that slot and then compared with
the slot. -/
def overlayStep (Compare : Option Object → Option Object → Bool) (legacyNames : IndexMap)
    (method : String) (acc : Items × Trace) (obj : Resource) : Items × Trace :=
  let name := getName (some (.resource obj))
  match legacyNames.lookup name with
  | some i =>
    let legacyList := acc.1.set i obj
    let areEqual := Compare (some (.resource obj)) (legacyList[i]?.map Object.resource)
    (legacyList, acc.2 ++ [Event.outcome mode2Str name areEqual method])
  | none => acc

/-- Lists Legacy, overlays the Storage items, returns the Legacy container
(`DualWriterMode2.List`). -/
def DualWriterMode2.List (Compare : Option Object → Option Object → Bool)
    (d : DualWriterMode2) : Ret :=
  let method := "list"
  let rLegacy := d.Legacy.list
  let ll := rLegacy.1
  let t0 : Trace := [Event.call .legacy .list]
  match rLegacy.2 with
  | some err => ⟨ll, some err, t0 ++ [Event.legacyDuration true mode2Str d.resource method]⟩
  | none =>
    let t1 := t0 ++ [Event.legacyDuration false mode2Str d.resource method]
    match ExtractList ll with
    | .error err => ⟨none, some err, t1⟩
    | .ok legacyList =>
      match parseList legacyList with
      | .error err => ⟨none, some err, t1⟩
      | .ok legacyNames =>
        let rStorage := d.Storage.list
        let sl := rStorage.1
        let t2 := t1 ++ [Event.call .storage .list]
        match rStorage.2 with
        | some err =>
          ⟨sl, some err, t2 ++ [Event.storageDuration true mode2Str d.resource method]⟩
        | none =>
          let t3 := t2 ++ [Event.storageDuration false mode2Str d.resource method]
          match ExtractList sl with
          | .error err => ⟨none, some err, t3⟩
          | .ok storageList =>
            let looped := storageList.foldl (overlayStep Compare legacyNames method) (legacyList, t3)
            match SetList ll looped.1 with
            | (_, some err) => ⟨none, some err, looped.2⟩
            | (ll1, none) => ⟨ll1, none, looped.2⟩

/-- Deletes from LegacyStorage, then from Storage (`DualWriterMode2.DeleteCollection`). -/
def DualWriterMode2.DeleteCollection (Compare : Option Object → Option Object → Bool)
    (d : DualWriterMode2) : Ret :=
  let method := "delete-collection"
  let rLegacy := d.Legacy.deleteCollection
  let deletedLegacy := rLegacy.1
  let t0 : Trace := [Event.call .legacy .deleteCollection]
  match rLegacy.2 with
  | some err =>
    ⟨deletedLegacy, some err, t0 ++ [Event.legacyDuration true mode2Str d.resource method]⟩
  | none =>
    let t1 := t0 ++ [Event.legacyDuration false mode2Str d.resource method]
    match ExtractList deletedLegacy with
    | .error err => ⟨none, some err, t1⟩
    | .ok legacyList =>
      match parseList legacyList with
      | .error err => ⟨none, some err, t1⟩
      | .ok _ =>
        let rStorage := d.Storage.deleteCollection
        let deletedStorage := rStorage.1
        let t2 := t1 ++ [Event.call .storage .deleteCollection]
        match rStorage.2 with
        | some err =>
          ⟨deletedStorage, some err,
            t2 ++ [Event.storageDuration true mode2Str d.resource method]⟩
        | none =>
          let areEqual := Compare deletedStorage deletedLegacy
          ⟨deletedLegacy, none,
            t2 ++ [Event.storageDuration false mode2Str d.resource method,
                   Event.outcome mode2Str (getName deletedStorage) areEqual method]⟩

/-- Deletes from Storage, then from LegacyStorage (`DualWriterMode2.Delete`). -/
def DualWriterMode2.Delete (Compare : Option Object → Option Object → Bool)
    (d : DualWriterMode2) (name : String) : RetFlag :=
  let method := "delete"
  let rStorage := d.Storage.delete name
  let deletedS := rStorage.1
  let t0 : Trace := [Event.call .storage .delete]
  match rStorage.2.2 with
  | some err =>
    ⟨deletedS, rStorage.2.1, some err,
      if !IsNotFound err then t0 ++ [Event.storageDuration true mode2Str d.resource method]
      else t0⟩
  | none =>
    let t1 := t0 ++ [Event.storageDuration false mode2Str d.resource method]
    let rLegacy := d.Legacy.delete name
    let deletedLS := rLegacy.1
    let async := rLegacy.2.1
    let err := rLegacy.2.2
    let t2 := t1 ++ [Event.call .legacy .delete]
    if (match err with
        | some e => !IsNotFound e
        | none => false) then
      ⟨deletedLS, async, err, t2 ++ [Event.legacyDuration true mode2Str d.resource method]⟩
    else
      let areEqual := Compare deletedS deletedLS
      ⟨deletedLS, async, err,
        t2 ++ [Event.legacyDuration false mode2Str d.resource method,
               Event.outcome mode2Str name areEqual method]⟩

/-- Writes first to the legacy storage and then to storage (`DualWriterMode2.Update`). -/
def DualWriterMode2.Update (Compare : Option Object → Option Object → Bool)
    (d : DualWriterMode2) (name : String) (objInfo : Option Object)
    (forceAllowCreate : Bool) : RetFlag :=
  let method := "update"
  let rLegacy := d.Legacy.update name objInfo forceAllowCreate
  let objFromLegacy := rLegacy.1
  let t0 : Trace := [Event.call .legacy .update]
  match rLegacy.2.2 with
  | some err =>
    ⟨objFromLegacy, rLegacy.2.1, some err,
      t0 ++ [Event.legacyDuration true mode2Str d.resource "update"]⟩
  | none =>
    let t1 := t0 ++ [Event.legacyDuration false mode2Str d.resource "update"]
    let rStorage := d.Storage.update name objInfo forceAllowCreate
    let objFromStorage := rStorage.1
    let created := rStorage.2.1
    let t2 := t1 ++ [Event.call .storage .update]
    match rStorage.2.2 with
    | some err =>
      ⟨objFromStorage, created, some err,
        t2 ++ [Event.storageDuration true mode2Str d.resource "update"]⟩
    | none =>
      let areEqual := Compare objFromStorage objFromLegacy
      let t3 := t2 ++ [Event.outcome mode2Str name areEqual method]
      let objFromLegacy1 :=
        if objFromStorage.isSome then (updateRV objFromStorage objFromLegacy).1
        else objFromLegacy
      ⟨objFromLegacy1, created, none, t3⟩

/-- Modelled from the spec: the Comparator `Compare` (declared outside the given
sources) is structural equality of two objects that ignores ResourceVersion and
normalizes UID; lists are compared item by item, in order. -/
def specCompare (a b : Option Object) : Bool :=
  let norm : Resource → Resource := fun r =>
    { r with metadata := r.metadata.map (fun m => { m with resourceVersion := "", uid := "" }) }
  match a, b with
  | none, none => true
  | some (.resource x), some (.resource y) => decide (norm x = norm y)
  | some (.list _ xs), some (.list _ ys) => decide (xs.map norm = ys.map norm)
  | _, _ => false

/-- The not-found error a store answers for a name it does not hold. -/
def errMissing : Err := ⟨true, "not found"⟩

/-- A store failure that is not a not-found. -/
def errDown : Err := ⟨false, "backend unavailable"⟩

/-- A store that answers not-found to reads and deletes and fails nothing else. -/
def emptyStore : Store where
  create := fun o => (o, none)
  get := fun _ => (none, some errMissing)
  list := (some (.list ⟨"", ""⟩ []), none)
  update := fun _ o _ => (o, false, none)
  delete := fun _ => (none, false, some errMissing)
  deleteCollection := (some (.list ⟨"", ""⟩ []), none)

/-- A resource carrying metadata with the given name, uid and resource version. -/
def mkRes (name uid rv spec : String) : Resource :=
  ⟨some ⟨name, uid, rv, [], []⟩, spec⟩

def mkObj (name uid rv spec : String) : Option Object :=
  some (.resource (mkRes name uid rv spec))

/-! ## Concrete stores and inputs -/

/-- Storage holds `a` at resource version 10. -/
def getStorage10 : Store :=
  { emptyStore with get := fun _ => (mkObj "a" "S1" "10" "x", none) }

/-- Legacy holds `a` at resource version 1. -/
def getLegacy1 : Store :=
  { emptyStore with get := fun _ => (mkObj "a" "L1" "1" "x", none) }

def getWriter : DualWriterMode2 := ⟨getLegacy1, getStorage10, "res"⟩

/-- Legacy holds `a` and deletes it. -/
def deleteLegacyHas : Store :=
  { emptyStore with delete := fun _ => (mkObj "a" "L1" "1" "x", false, none) }

/-- Storage holds `a` and deletes it. -/
def deleteStorageHas : Store :=
  { emptyStore with delete := fun _ => (mkObj "a" "S1" "10" "x", false, none) }

/-- Legacy holds `a`, Storage does not. -/
def deleteOnlyLegacy : DualWriterMode2 := ⟨deleteLegacyHas, emptyStore, "res"⟩

/-- Storage holds `a`, Legacy does not. -/
def deleteOnlyStorage : DualWriterMode2 := ⟨emptyStore, deleteStorageHas, "res"⟩

/-- Legacy updates an existing `a`. -/
def updateLegacyExisting : Store :=
  { emptyStore with update := fun _ _ _ => (mkObj "a" "L1" "2" "x", false, none) }

/-- Storage creates `a` on update. -/
def updateStorageCreates : Store :=
  { emptyStore with update := fun _ _ _ => (mkObj "a" "S1" "10" "x", true, none) }

def updateWriter : DualWriterMode2 := ⟨updateLegacyExisting, updateStorageCreates, "res"⟩

/-- Legacy lists `a` at resource version 1 and `b` at 2. -/
def listLegacy : Store :=
  { emptyStore with
    list := (some (.list ⟨"7", "next"⟩ [mkRes "a" "L1" "1" "old", mkRes "b" "L2" "2" "y"]), none) }

/-- Storage lists `a` at resource version 10, with another payload, and `c` at 30. -/
def listStorage : Store :=
  { emptyStore with
    list := (some (.list ⟨"31", ""⟩ [mkRes "a" "S1" "10" "new", mkRes "c" "S3" "30" "z"]), none) }

def listWriter : DualWriterMode2 := ⟨listLegacy, listStorage, "res"⟩

/-- Legacy refuses every write and hands back an object along with the error. -/
def failingLegacy : Store :=
  { emptyStore with
    create := fun _ => (mkObj "a" "" "" "rejected", some errDown)
    update := fun _ _ _ => (mkObj "a" "L1" "1" "rejected", true, some errDown) }

def failingLegacyWriter : DualWriterMode2 := ⟨failingLegacy, emptyStore, "res"⟩

/-- Legacy assigns uid `L1` and resource version 1, and deletes `a`. -/
def mirrorLegacy : Store :=
  { emptyStore with
    create := fun _ => (mkObj "a" "L1" "1" "x", none)
    delete := fun _ => (mkObj "a" "L1" "1" "x", false, none)
    deleteCollection := (some (.list ⟨"7", ""⟩ [mkRes "a" "L1" "1" "x"]), none) }

/-- Storage assigns uid `S1` and resource version 10, and deletes `a`. -/
def mirrorStorage : Store :=
  { emptyStore with
    create := fun _ => (mkObj "a" "S1" "10" "x", none)
    delete := fun _ => (mkObj "a" "S1" "10" "x", true, none)
    deleteCollection := (some (.list ⟨"31", ""⟩ [mkRes "a" "S1" "10" "x"]), none) }

def mirrorWriter : DualWriterMode2 := ⟨mirrorLegacy, mirrorStorage, "res"⟩

/-- An event with the verdict of the Comparator blanked: two traces that agree
under `forgetOutcome` hold the same events in the same order and differ at most
in the `areEqual` flag of their outcome records. -/
def forgetOutcome : Event → Event
  | .outcome mode name _ method => .outcome mode name true method
  | e => e

/-- The two arguments of `updateRV` after the call, with its error: the state
passed through `updateRV` is the pair (Storage object, Legacy object), and the
only write is `legacyAccessor.SetResourceVersion`. -/
def updateRVInPlace (storageObj legacyObj : Option Object) :
    (Option Object × Option Object) × Option Err :=
  match MetaAccessor storageObj with
  | .error e => ((storageObj, legacyObj), some e)
  | .ok storageAccessor =>
    match MetaAccessor legacyObj with
    | .error e => ((storageObj, legacyObj), some e)
    | .ok legacyAccessor =>
      ((storageObj,
        SetMeta legacyObj
          { legacyAccessor with resourceVersion := storageAccessor.resourceVersion }), none)

/-- Storage is down: every read fails with an error that is not a not-found. -/
def downStore : Store :=
  { emptyStore with
    create := fun _ => (mkObj "a" "" "" "half", some errDown)
    get := fun _ => (none, some errDown)
    update := fun _ _ _ => (mkObj "a" "" "" "half", true, some errDown) }

/-- Storage is down, Legacy holds `a`. -/
def getStorageDown : DualWriterMode2 := ⟨getLegacy1, downStore, "res"⟩

/-- Storage holds `a` at resource version 10, Legacy does not hold it. -/
def getOnlyStorage : DualWriterMode2 := ⟨emptyStore, getStorage10, "res"⟩

/-- Legacy holds `a` at resource version 1, Storage does not hold it. -/
def getOnlyLegacy : DualWriterMode2 := ⟨getLegacy1, emptyStore, "res"⟩

/-- Storage answers not-found for `a` and hands back `a` at resource version 10
along with it; Legacy holds `a` at resource version 1. -/
def getStorageNotFoundWithObject : DualWriterMode2 :=
  ⟨getLegacy1,
   { emptyStore with get := fun _ => (mkObj "a" "S1" "10" "x", some errMissing) }, "res"⟩

/-- Legacy accepts every write, Storage is down. -/
def storageDownWriter : DualWriterMode2 :=
  ⟨{ mirrorLegacy with update := fun _ _ _ => (mkObj "a" "L1" "2" "x", false, none) },
   downStore, "res"⟩

/-- Legacy deleted `a` only; Storage, handed the same selectors, deleted `a` and `c`. -/
def deleteCollectionWriter : DualWriterMode2 :=
  ⟨{ emptyStore with
      deleteCollection := (some (.list ⟨"7", ""⟩ [mkRes "a" "L1" "1" "x"]), none) },
   { emptyStore with
      deleteCollection :=
        (some (.list ⟨"31", ""⟩ [mkRes "a" "S1" "10" "x", mkRes "c" "S3" "30" "z"]), none) },
   "res"⟩

/-! ## The data syncer -/

/-- A transient record of a sync pass, keyed by name (`syncItem`). -/
structure syncItem where
  name : String
  objStorage : Option Object
  objLegacy : Option Object
deriving DecidableEq, Repr

/-- The Go `map[string]syncItem` of a sync pass: at most one binding per name. -/
abbrev ItemsByName := List (String × syncItem)

/-- The zero value `syncItem{}`. -/
def emptySyncItem : syncItem := ⟨"", none, none⟩

/-- The assignment `itemsByName[name] = item`. -/
def mapPut (m : ItemsByName) (name : String) (item : syncItem) : ItemsByName :=
  (name, item) :: m.filter (fun kv => kv.1 != name)

/-- An observable effect of a sync pass: a store invocation or a metrics record.
The limit of a list request is 0 when the request sets none. -/
inductive SyncEvent where
  | list (s : StoreId) (limit : Nat)
  | update (name : String) (objInfo : Option Object) (forceAllowCreate : Bool)
  | delete (name : String)
  | recordDataSyncerOutcome (mode resource : String) (synced : Bool)
  | recordDataSyncerDuration (isError : Bool) (mode resource : String)
deriving DecidableEq, Repr

/-- The answer of `LockExecuteAndRelease`: whether it ran the body, and its error. -/
structure ServerLockService where
  runsBody : Bool
  err : Option Err

/-- The counters of a sync pass and the effects so far. -/
structure SyncState where
  outOfSync : Nat
  syncSuccess : Nat
  syncErr : Nat
  trace : List SyncEvent
deriving DecidableEq, Repr

/-- What `mode2DataSyncer` returns, with the counters it logs and the effects. -/
structure SyncResult where
  everythingSynced : Bool
  err : Option Err
  outOfSync : Nat
  syncSuccess : Nat
  syncErr : Nat
  trace : List SyncEvent
deriving DecidableEq, Repr

def maxRecordsSync : Nat := 1000

/-- The error `mode2DataSyncer` builds when Storage lists too many records. -/
def errSyncLimit : Err :=
  ⟨false, "unified storage has more than " ++ toString maxRecordsSync ++
    " records. Aborting sync"⟩

def getList (obj : Store) : Except Err Items :=
  match obj.list.2 with
  | some err => .error err
  | none => ExtractList obj.list.1

/-- One turn of the loop of the syncer over the Legacy list. -/
def addLegacy (itemsByName : ItemsByName) (obj : Resource) : ItemsByName :=
  match MetaAccessor (some (.resource obj)) with
  | .error _ => itemsByName
  | .ok accessor =>
    let name := accessor.name
    let item := (itemsByName.lookup name).getD emptySyncItem
    mapPut itemsByName name { item with name := name, objLegacy := some (.resource obj) }

/-- One turn of the loop of the syncer over the Storage list. -/
def addStorage (itemsByName : ItemsByName) (obj : Resource) : ItemsByName :=
  match MetaAccessor (some (.resource obj)) with
  | .error _ => itemsByName
  | .ok accessor =>
    let name := accessor.name
    let item := (itemsByName.lookup name).getD emptySyncItem
    mapPut itemsByName name { item with name := name, objStorage := some (.resource obj) }

/-- The upsert branch of a turn of the loop over `itemsByName`; the flag tells
that the turn ended with `continue`. -/
def syncUpsert (Compare : Option Object → Option Object → Bool) (storage : Store)
    (st : SyncState) (name : String) (item : syncItem) : SyncState × Bool :=
  if item.objLegacy.isSome &&
      ((item.objStorage.isSome && !Compare item.objLegacy item.objStorage) ||
        item.objStorage.isNone) then
    let st1 := { st with outOfSync := st.outOfSync + 1 }
    match MetaAccessor item.objLegacy with
    | .error _ => (st1, true)
    | .ok accessor =>
      let prepared : Except Err ObjectMeta :=
        if item.objStorage.isSome then
          match MetaAccessor item.objStorage with
          | .error e => .error e
          | .ok accessorStorage =>
            .ok { accessor with
                  resourceVersion := accessorStorage.resourceVersion
                  uid := accessorStorage.uid }
        else
          .ok { accessor with resourceVersion := "", uid := "" }
      match prepared with
      | .error _ => (st1, true)
      | .ok m =>
        let objInfo := SetMeta item.objLegacy m
        let r := storage.update name objInfo true
        let t := st1.trace ++ [SyncEvent.update name objInfo true]
        match r.2.2 with
        | some _ => ({ st1 with syncErr := st1.syncErr + 1, trace := t }, false)
        | none => ({ st1 with syncSuccess := st1.syncSuccess + 1, trace := t }, false)
  else
    (st, false)

/-- The delete branch of a turn of the loop over `itemsByName`. -/
def syncDelete (storage : Store) (st : SyncState) (name : String) (item : syncItem) :
    SyncState :=
  if item.objLegacy.isNone && item.objStorage.isSome then
    let st1 := { st with outOfSync := st.outOfSync + 1 }
    let r := storage.delete name
    let t := st1.trace ++ [SyncEvent.delete name]
    match r.2.2 with
    | some _ => { st1 with syncErr := st1.syncErr + 1, trace := t }
    | none => { st1 with syncSuccess := st1.syncSuccess + 1, trace := t }
  else
    st

/-- One turn of the loop over `itemsByName`. -/
def syncStep (Compare : Option Object → Option Object → Bool) (storage : Store)
    (st : SyncState) (kv : String × syncItem) : SyncState :=
  let up := syncUpsert Compare storage st kv.1 kv.2
  if up.2 then up.1 else syncDelete storage up.1 kv.1 kv.2

/-- One pass of the syncer (`mode2DataSyncer`).  Go leaves the order in which a
map is ranged over open: `order` is that order. -/
def mode2DataSyncer (Compare : Option Object → Option Object → Bool)
    (legacy storage : Store) (resource : String) (serverLockService : ServerLockService)
    (order : ItemsByName → ItemsByName) : SyncResult :=
  if !serverLockService.runsBody then
    ⟨false, serverLockService.err, 0, 0, 0, []⟩
  else
    let t0 : List SyncEvent := [SyncEvent.list .storage maxRecordsSync]
    match getList storage with
    | .error _ => ⟨false, serverLockService.err, 0, 0, 0, t0⟩
    | .ok storageList =>
      if storageList.length ≥ maxRecordsSync then
        ⟨false, some errSyncLimit, 0, 0, 0, t0⟩
      else
        let t1 := t0 ++ [SyncEvent.list .legacy 0]
        match getList legacy with
        | .error _ => ⟨false, serverLockService.err, 0, 0, 0, t1⟩
        | .ok legacyList =>
          let itemsByName := storageList.foldl addStorage (legacyList.foldl addLegacy [])
          let st := (order itemsByName).foldl (syncStep Compare storage) ⟨0, 0, 0, t1⟩
          let everythingSynced := st.outOfSync == st.syncSuccess
          ⟨everythingSynced, serverLockService.err, st.outOfSync, st.syncSuccess, st.syncErr,
            st.trace ++ [SyncEvent.recordDataSyncerOutcome mode2Str resource everythingSynced,
                         SyncEvent.recordDataSyncerDuration false mode2Str resource]⟩

/-- The item a list holds under a name: the last one that bears it, which is
the one a map keyed by name is left with. -/
def lastNamed (l : Items) (n : String) : Option Resource :=
  l.reverse.find? (fun r => itemName r == n)

/-- The names a trace of the syncer shows a Storage mutation for, in order. -/
def mutatedNames (t : List SyncEvent) : List String :=
  t.filterMap (fun ev =>
    match ev with
    | .update name _ _ => some name
    | .delete name => some name
    | _ => none)

/-- The lock service runs the body and reports no error. -/
def lockRuns : ServerLockService := ⟨true, none⟩

/-- Legacy lists `x` and `y`. -/
def syncLegacy : Store :=
  { emptyStore with
    list := (some (.list ⟨"9", ""⟩ [mkRes "x" "L1" "1" "px", mkRes "y" "L2" "2" "py"]), none) }

/-- Storage lists another `y` and a `z`, and accepts every mutation. -/
def syncStorage : Store :=
  { emptyStore with
    list := (some (.list ⟨"40", ""⟩ [mkRes "y" "S2" "20" "old", mkRes "z" "S3" "30" "pz"]), none)
    update := fun _ o _ => (o, false, none)
    delete := fun _ => (none, false, none) }

/-- Storage lists `z` only and answers not-found when asked to delete it. -/
def syncStorageGone : Store :=
  { emptyStore with
    list := (some (.list ⟨"40", ""⟩ [mkRes "z" "S3" "30" "pz"]), none) }

/-- Legacy lists nothing. -/
def syncLegacyEmpty : Store := emptyStore

/-- Storage lists a thousand records. -/
def syncStorageFull : Store :=
  { emptyStore with
    list := (some (.list ⟨"40", ""⟩ (List.replicate 1000 (mkRes "z" "S3" "30" "pz"))), none) }

/-- Storage fails to list. -/
def syncStorageListFails : Store :=
  { emptyStore with list := (none, some errDown) }

/-- Legacy fails to list. -/
def syncLegacyListFails : Store :=
  { emptyStore with list := (none, some errDown) }

/-- The event records a Storage mutation that Storage answered with no error. -/
def mutationSucceeded (storage : Store) : SyncEvent → Bool
  | .update name objInfo f => (storage.update name objInfo f).2.2.isNone
  | .delete name => (storage.delete name).2.2.isNone
  | _ => false

/-- The event records a Storage mutation that Storage answered with an error. -/
def mutationFailed (storage : Store) : SyncEvent → Bool
  | .update name objInfo f => (storage.update name objInfo f).2.2.isSome
  | .delete name => (storage.delete name).2.2.isSome
  | _ => false

/-- Legacy lists `x`, `y` and `w`. -/
def syncLegacyW : Store :=
  { emptyStore with
    list := (some (.list ⟨"9", ""⟩
      [mkRes "x" "L1" "1" "px", mkRes "y" "L2" "2" "py", mkRes "w" "L4" "4" "pw"]), none) }

/-- Storage lists another `y`, a `z` and the same `w`, and accepts every mutation. -/
def syncStorageW : Store :=
  { emptyStore with
    list := (some (.list ⟨"40", ""⟩
      [mkRes "y" "S2" "20" "old", mkRes "z" "S3" "30" "pz", mkRes "w" "S4" "40" "pw"]), none)
    update := fun _ o _ => (o, false, none)
    delete := fun _ => (none, false, none) }

/-- Storage after the pass over `syncLegacyW` and `syncStorageW`: `y` updated,
`z` gone, `w` untouched, `x` created. -/
def syncStorageWAfter : Store :=
  { syncStorageW with
    list := (some (.list ⟨"43", ""⟩
      [mkRes "y" "S2" "41" "py", mkRes "w" "S4" "40" "pw", mkRes "x" "S9" "43" "px"]), none) }

/-- A thousand objects, named `n0` to `n999`. -/
def bigLegacyItems : Items :=
  (List.range 1000).map (fun i => mkRes ("n" ++ toString i) "" (toString i) "p")

/-- Legacy lists a thousand objects. -/
def syncLegacyBig : Store :=
  { emptyStore with list := (some (.list ⟨"9", ""⟩ bigLegacyItems), none) }

/-- Storage lists nothing and accepts every mutation. -/
def syncStorageEmpty : Store :=
  { emptyStore with
    update := fun _ o _ => (o, false, none)
    delete := fun _ => (none, false, none) }

/-- The object Storage lists once it holds a given object: the same object
under a UID and a resource version of its own. -/
def storedAs (r : Resource) : Resource :=
  { r with metadata := r.metadata.map (fun m =>
      { m with uid := "S-" ++ m.name, resourceVersion := "7" }) }

/-- Storage after every object of `bigLegacyItems` was upserted into it. -/
def syncStorageBigAfter : Store :=
  { syncStorageEmpty with list := (some (.list ⟨"50", ""⟩ (bigLegacyItems.map storedAs)), none) }

/-! # Theorems -/

/-! ## Get -/

/-- C1 (as the code has it): when Storage.Get and Legacy.Get both succeed, Get
returns no error, and the ResourceVersion of the returned object is the one of
the Storage object whenever both objects carry metadata; it is the one of the
Legacy object only when one of the two carries no metadata. -/
theorem get_resourceVersion_from_storage (Compare : Option Object → Option Object → Bool)
    (d : DualWriterMode2) (name : String)
    (hS : (d.Storage.get name).2 = none) (hL : (d.Legacy.get name).2 = none) :
    (d.Get Compare name).err = none ∧
    GetResourceVersion (d.Get Compare name).obj =
      match GetResourceVersion (d.Storage.get name).1,
            GetResourceVersion (d.Legacy.get name).1 with
      | some rvS, some _ => some rvS
      | _, rvL => rvL := by
  unfold DualWriterMode2.Get
  simp only [hS, hL]
  refine ⟨by simp, ?_⟩
  rcases (d.Storage.get name).1 with _ | ⟨⟨_ | ms, ss⟩ | ⟨slm, sit⟩⟩ <;>
    rcases (d.Legacy.get name).1 with _ | ⟨⟨_ | ml, sl⟩ | ⟨llm, lit⟩⟩ <;>
    simp [updateRV, MetaAccessor, Accessor, GetResourceVersion, SetMeta]

theorem get_resourceVersion_from_storage_witness :
    (getWriter.Storage.get "a").2 = none ∧ (getWriter.Legacy.get "a").2 = none ∧
    (getWriter.Get specCompare "a").err = none ∧
    GetResourceVersion (getWriter.Get specCompare "a").obj = some "10" :=
  ⟨rfl, rfl, get_resourceVersion_from_storage specCompare getWriter "a" rfl rfl⟩

/-- C1 fails as stated: Storage and Legacy both answer Get without error, Legacy
holds resource version 1, and the object Get returns carries 10. -/
theorem get_resourceVersion_not_legacy :
    (getWriter.Storage.get "a").2 = none ∧ (getWriter.Legacy.get "a").2 = none ∧
    GetResourceVersion (getWriter.Legacy.get "a").1 = some "1" ∧
    GetResourceVersion (getWriter.Get specCompare "a").obj = some "10" ∧
    GetResourceVersion (getWriter.Get specCompare "a").obj ≠
      GetResourceVersion (getWriter.Legacy.get "a").1 := by
  refine ⟨rfl, rfl, rfl, rfl, ?_⟩
  decide

/-! ## Delete -/

/-- C2: Storage answers Delete with not-found while Legacy holds the object.
Delete hands back Storage's not-found error and the trace holds no Legacy
invocation: the not-found answer ends the call instead of being passed over. -/
theorem delete_storage_notFound_returns :
    (deleteOnlyLegacy.Storage.delete "a").2.2 = some errMissing ∧
    IsNotFound errMissing = true ∧
    deleteOnlyLegacy.Delete specCompare "a" =
      ⟨none, false, some errMissing, [Event.call .storage .delete]⟩ ∧
    Event.call .legacy .delete ∉ (deleteOnlyLegacy.Delete specCompare "a").trace := by
  refine ⟨rfl, rfl, rfl, ?_⟩
  decide

/-- C3: Storage deletes the object and Legacy answers not-found.  Delete records
the Legacy call as not failed and compares the two results, and hands back
Legacy's nil object together with Legacy's not-found error, not a nil error. -/
theorem delete_legacy_notFound_returns :
    (deleteOnlyStorage.Storage.delete "a").2.2 = none ∧
    (deleteOnlyStorage.Legacy.delete "a").2.2 = some errMissing ∧
    (deleteOnlyStorage.Delete specCompare "a").obj = none ∧
    (deleteOnlyStorage.Delete specCompare "a").err = some errMissing ∧
    Event.legacyDuration false mode2Str "res" "delete" ∈
      (deleteOnlyStorage.Delete specCompare "a").trace := by
  refine ⟨rfl, rfl, rfl, rfl, ?_⟩
  decide

/-! ## Update -/

/-- C4 (as the code has it): when Legacy.Update and Storage.Update both succeed,
Update returns no error and the `created` flag is the one Storage.Update
returned, whatever flag Legacy.Update returned. -/
theorem update_created_from_storage (Compare : Option Object → Option Object → Bool)
    (d : DualWriterMode2) (name : String) (objInfo : Option Object) (forceAllowCreate : Bool)
    (hL : (d.Legacy.update name objInfo forceAllowCreate).2.2 = none)
    (hS : (d.Storage.update name objInfo forceAllowCreate).2.2 = none) :
    (d.Update Compare name objInfo forceAllowCreate).err = none ∧
    (d.Update Compare name objInfo forceAllowCreate).flag =
      (d.Storage.update name objInfo forceAllowCreate).2.1 := by
  unfold DualWriterMode2.Update
  simp [hL, hS]

/-- Both stores succeed, Legacy reports an update and Storage a creation: the
flag handed back is Storage's. -/
theorem update_created_from_storage_witness :
    (updateWriter.Legacy.update "a" none false).2.2 = none ∧
    (updateWriter.Storage.update "a" none false).2.2 = none ∧
    (updateWriter.Update specCompare "a" none false).err = none ∧
    (updateWriter.Update specCompare "a" none false).flag = true :=
  ⟨rfl, rfl, update_created_from_storage specCompare updateWriter "a" none false rfl rfl⟩

/-- C4 fails as stated: both stores succeed, Legacy.Update returns `created = false`
and Update hands back `created = true`. -/
theorem update_created_not_legacy :
    (updateWriter.Legacy.update "a" none false).2.2 = none ∧
    (updateWriter.Storage.update "a" none false).2.2 = none ∧
    (updateWriter.Legacy.update "a" none false).2.1 = false ∧
    (updateWriter.Update specCompare "a" none false).flag = true ∧
    (updateWriter.Update specCompare "a" none false).flag ≠
      (updateWriter.Legacy.update "a" none false).2.1 := by
  refine ⟨rfl, rfl, rfl, rfl, ?_⟩
  decide

/-! ## List -/

/-- Writing into a slot the value it already holds changes nothing. -/
theorem set_of_getElem?_eq {α : Type} (l : List α) (j : Nat) (a : α) (h : l[j]? = some a) :
    l.set j a = l := by
  apply List.ext_getElem?
  intro n
  rw [List.getElem?_set]
  by_cases hjn : j = n
  · subst hjn
    have hlt : j < l.length := (List.getElem?_eq_some.mp h).1
    simp [hlt, h]
  · simp [hjn]

/-- Every binding of the index built by `parseListFrom` is either a binding it
started from or the position of an item bearing that name. -/
theorem parseListFrom_lookup (l : Items) :
    ∀ (i : Nat) (m m' : IndexMap), parseListFrom i l m = .ok m' →
      ∀ (n : String) (j : Nat), m'.lookup n = some j →
        m.lookup n = some j ∨ ∃ k r, l[k]? = some r ∧ j = i + k ∧ itemName r = n := by
  induction l with
  | nil =>
    intro i m m' h n j hj
    simp [parseListFrom] at h
    subst h
    exact Or.inl hj
  | cons obj rest ih =>
    intro i m m' h n j hj
    rcases obj with ⟨_ | meta, sp⟩
    · simp [parseListFrom, MetaAccessor, Accessor] at h
    · simp only [parseListFrom, MetaAccessor, Accessor] at h
      rcases ih (i + 1) _ m' h n j hj with h1 | ⟨k, r, hk, hjk, hr⟩
      · rw [List.lookup_cons] at h1
        by_cases hn : (n == meta.name) = true
        · simp only [hn] at h1
          right
          refine ⟨0, ⟨some meta, sp⟩, by simp, ?_, ?_⟩
          · simpa using (Option.some.inj h1).symm
          · simp [itemName, getName, Accessor]
            exact (beq_iff_eq.mp hn).symm
        · simp only [hn] at h1
          exact Or.inl h1
      · right
        refine ⟨k + 1, r, by simpa using hk, by omega, hr⟩

/-- A binding of the index built by `parseList` points at an item of that name. -/
theorem parseList_lookup (l : Items) (m : IndexMap) (h : parseList l = .ok m)
    (n : String) (j : Nat) (hj : m.lookup n = some j) :
    ∃ r, l[j]? = some r ∧ itemName r = n := by
  rcases parseListFrom_lookup l 0 [] m h n j hj with h1 | ⟨k, r, hk, hjk, hr⟩
  · simp at h1
  · refine ⟨r, ?_, hr⟩
    have : j = k := by omega
    subst this
    exact hk

/-- The overlay loop keeps, position by position, the names of the list it
started from, whatever the Storage items are. -/
theorem overlay_names (Compare : Option Object → Option Object → Bool) (names : IndexMap)
    (method : String) (legacy : Items)
    (hnames : ∀ n j, names.lookup n = some j → ∃ r, legacy[j]? = some r ∧ itemName r = n) :
    ∀ (storageList cur : Items) (t : Trace), cur.map itemName = legacy.map itemName →
      ((storageList.foldl (overlayStep Compare names method) (cur, t)).1).map itemName =
        legacy.map itemName := by
  intro storageList
  induction storageList with
  | nil => intro cur t h; simpa using h
  | cons obj rest ih =>
    intro cur t h
    rw [List.foldl_cons]
    cases hl : names.lookup (getName (some (.resource obj))) with
    | none =>
      have hstep : overlayStep Compare names method (cur, t) obj = (cur, t) := by
        simp [overlayStep, hl]
      rw [hstep]
      exact ih cur t h
    | some j =>
      have hstep : overlayStep Compare names method (cur, t) obj =
          (cur.set j obj, t ++ [Event.outcome mode2Str (getName (some (.resource obj)))
            (Compare (some (.resource obj)) ((cur.set j obj)[j]?.map Object.resource)) method]) := by
        simp [overlayStep, hl]
      rw [hstep]
      apply ih
      rcases hnames _ j hl with ⟨r, hr, hrn⟩
      rw [List.map_set, h]
      apply set_of_getElem?_eq
      rw [List.getElem?_map, hr]
      simp [itemName, hrn] at *
      exact hrn

/-- A List call that returns no error went through every step: both stores
answered with a list object, every Legacy item carried metadata, and the
result is the Legacy container holding the items the overlay loop left. -/
theorem list_success (Compare : Option Object → Option Object → Bool) (d : DualWriterMode2)
    (h : (d.List Compare).err = none) :
    ∃ lm legacyList slm storageList legacyNames,
      d.Legacy.list = (some (.list lm legacyList), none) ∧
      parseList legacyList = .ok legacyNames ∧
      d.Storage.list = (some (.list slm storageList), none) ∧
      (d.List Compare).obj = some (.list lm
        (storageList.foldl (overlayStep Compare legacyNames "list")
          (legacyList, [Event.call .legacy .list,
            Event.legacyDuration false mode2Str d.resource "list",
            Event.call .storage .list,
            Event.storageDuration false mode2Str d.resource "list"])).1) ∧
      (d.List Compare).trace =
        (storageList.foldl (overlayStep Compare legacyNames "list")
          (legacyList, [Event.call .legacy .list,
            Event.legacyDuration false mode2Str d.resource "list",
            Event.call .storage .list,
            Event.storageDuration false mode2Str d.resource "list"])).2 := by
  unfold DualWriterMode2.List at h ⊢
  rcases hl : d.Legacy.list with ⟨ll, el⟩
  rcases hs : d.Storage.list with ⟨sl, es⟩
  simp only [hl, hs] at h ⊢
  cases el with
  | some e => simp at h
  | none =>
    rcases ll with _ | ⟨r⟩ | ⟨lm, legacyList⟩
    · simp [ExtractList] at h
    · simp [ExtractList] at h
    · simp only [ExtractList] at h ⊢
      cases hp : parseList legacyList with
      | error e => simp [hp] at h
      | ok legacyNames =>
        simp only [hp] at h ⊢
        cases es with
        | some e => simp at h
        | none =>
          rcases sl with _ | ⟨r⟩ | ⟨slm, storageList⟩
          · simp [ExtractList] at h
          · simp [ExtractList] at h
          · refine ⟨lm, legacyList, slm, storageList, legacyNames, rfl, hp, rfl, ?_, ?_⟩ <;>
              simp [ExtractList, SetList]

/-- C5: a List call that returns no error returns a list object with as many
items as the list Legacy returned, and the item at each position bears the
name of the Legacy item at that position, so the names in the response are
those of the Legacy list, whatever Storage lists. -/
theorem list_names_are_legacy_names (Compare : Option Object → Option Object → Bool)
    (d : DualWriterMode2) (h : (d.List Compare).err = none) :
    ∃ lm legacyList items,
      d.Legacy.list.1 = some (.list lm legacyList) ∧
      (d.List Compare).obj = some (.list lm items) ∧
      items.length = legacyList.length ∧
      items.map itemName = legacyList.map itemName ∧
      (∀ (i : Nat) (r : Resource), items[i]? = some r →
        ∃ l, legacyList[i]? = some l ∧ itemName r = itemName l) ∧
      (∀ n, n ∈ items.map itemName ↔ n ∈ legacyList.map itemName) := by
  rcases list_success Compare d h with
    ⟨lm, legacyList, slm, storageList, legacyNames, hl, hp, hs, hobj, htr⟩
  have hmap := overlay_names Compare legacyNames "list" legacyList
    (parseList_lookup legacyList legacyNames hp) storageList legacyList
    [Event.call .legacy .list, Event.legacyDuration false mode2Str d.resource "list",
     Event.call .storage .list, Event.storageDuration false mode2Str d.resource "list"] rfl
  refine ⟨lm, legacyList, _, by rw [hl], hobj, ?_, hmap, ?_, ?_⟩
  · simpa using congrArg List.length hmap
  · intro i r hr
    have h1 := congrArg (fun l => l[i]?) hmap
    simp only [List.getElem?_map, hr, Option.map_some'] at h1
    cases hli : legacyList[i]? with
    | none => simp [hli] at h1
    | some l =>
      refine ⟨l, rfl, ?_⟩
      simpa [hli] using h1
  · intro n
    rw [hmap]

/-- The List call on `listWriter` returns no error, overlays `a`, keeps `b`,
drops `c`, and keeps the ListMeta of Legacy. -/
theorem list_names_are_legacy_names_witness :
    (listWriter.List specCompare).err = none ∧
    (listWriter.List specCompare).obj =
      some (.list ⟨"7", "next"⟩ [mkRes "a" "S1" "10" "new", mkRes "b" "L2" "2" "y"]) ∧
    ∃ lm legacyList items,
      listWriter.Legacy.list.1 = some (.list lm legacyList) ∧
      (listWriter.List specCompare).obj = some (.list lm items) ∧
      items.length = legacyList.length ∧
      items.map itemName = legacyList.map itemName ∧
      (∀ (i : Nat) (r : Resource), items[i]? = some r →
        ∃ l, legacyList[i]? = some l ∧ itemName r = itemName l) ∧
      (∀ n, n ∈ items.map itemName ↔ n ∈ legacyList.map itemName) :=
  ⟨rfl, rfl, list_names_are_legacy_names specCompare listWriter rfl⟩

/-- Every name borne by an item is bound in the index built by `parseListFrom`. -/
theorem parseListFrom_lookup_isSome (l : Items) :
    ∀ (i : Nat) (m m' : IndexMap), parseListFrom i l m = .ok m' →
      ∀ n : String, ((m.lookup n).isSome ∨ n ∈ l.map itemName) → (m'.lookup n).isSome := by
  induction l with
  | nil =>
    intro i m m' h n hn
    simp [parseListFrom] at h
    subst h
    simpa using hn
  | cons obj rest ih =>
    intro i m m' h n hn
    rcases obj with ⟨_ | meta, sp⟩
    · simp [parseListFrom, MetaAccessor, Accessor] at h
    · simp only [parseListFrom, MetaAccessor, Accessor] at h
      apply ih (i + 1) _ m' h n
      rw [List.lookup_cons]
      by_cases hnm : n = meta.name
      · left
        simp [hnm]
      · have hb : (n == meta.name) = false := by simpa using hnm
        rcases hn with hn | hn
        · left
          simpa [hb] using hn
        · simp only [List.map_cons, List.mem_cons] at hn
          rcases hn with hn | hn
          · exact absurd (by simpa [itemName, getName, Accessor] using hn) hnm
          · exact Or.inr hn

/-- With pairwise distinct Legacy names, the overlay loop leaves in each slot
the last Storage item seen so far that bears the name of the slot, and the
Legacy item when there is none. -/
theorem overlay_items (Compare : Option Object → Option Object → Bool) (names : IndexMap)
    (method : String) (legacy : Items)
    (hsound : ∀ n j, names.lookup n = some j → ∃ r, legacy[j]? = some r ∧ itemName r = n)
    (hcomplete : ∀ l ∈ legacy, (names.lookup (itemName l)).isSome)
    (hd : (legacy.map itemName).Nodup) :
    ∀ (storageList seen : Items) (t : Trace),
      (storageList.foldl (overlayStep Compare names method)
        (legacy.map (fun l =>
          (seen.reverse.find? (fun s => itemName s == itemName l)).getD l), t)).1 =
      legacy.map (fun l =>
        ((seen ++ storageList).reverse.find? (fun s => itemName s == itemName l)).getD l) := by
  intro storageList
  induction storageList with
  | nil => intro seen t; simp
  | cons obj rest ih =>
    intro seen t
    rw [List.foldl_cons]
    have happ : seen ++ obj :: rest = (seen ++ [obj]) ++ rest := by simp
    rw [happ]
    cases hl : names.lookup (getName (some (.resource obj))) with
    | none =>
      have hstep : overlayStep Compare names method
          (legacy.map (fun l =>
            (seen.reverse.find? (fun s => itemName s == itemName l)).getD l), t) obj =
          (legacy.map (fun l =>
            ((seen ++ [obj]).reverse.find? (fun s => itemName s == itemName l)).getD l), t) := by
        simp only [overlayStep, hl]
        congr 1
        apply List.map_congr_left
        intro l hlmem
        have hne : (itemName obj == itemName l) = false := by
          have hs := hcomplete l hlmem
          apply beq_false_of_ne
          intro heq
          rw [← heq] at hs
          simp [itemName, hl] at hs
        simp [List.find?_cons, hne]
      rw [hstep]
      exact ih (seen ++ [obj]) t
    | some j =>
      rcases hsound _ j hl with ⟨r, hr, hrn0⟩
      have hrn : itemName r = itemName obj := hrn0
      have hset : (legacy.map (fun l =>
            (seen.reverse.find? (fun s => itemName s == itemName l)).getD l)).set j obj =
          legacy.map (fun l =>
            ((seen ++ [obj]).reverse.find? (fun s => itemName s == itemName l)).getD l) := by
        apply List.ext_getElem?
        intro n
        rw [List.getElem?_set]
        by_cases hjn : j = n
        · subst hjn
          have hlt : j < legacy.length := (List.getElem?_eq_some.mp hr).1
          have hb : (itemName obj == itemName r) = true := by
            simp [hrn]
          rw [if_pos rfl, if_pos (by simpa using hlt), List.getElem?_map, hr]
          simp [List.find?_cons, hb]
        · simp only [hjn, if_false, List.getElem?_map]
          cases hn : legacy[n]? with
          | none => simp
          | some l =>
            have hne : (itemName obj == itemName l) = false := by
              apply beq_false_of_ne
              intro heq
              apply hjn
              have hjlt : j < (legacy.map itemName).length := by
                simpa using (List.getElem?_eq_some.mp hr).1
              apply List.getElem?_inj hjlt hd
              simp only [List.getElem?_map, hr, hn, Option.map_some']
              rw [← heq, hrn]
            simp [List.find?_cons, hne]
      have hstep : (overlayStep Compare names method
          (legacy.map (fun l =>
            (seen.reverse.find? (fun s => itemName s == itemName l)).getD l), t) obj).1 =
          legacy.map (fun l =>
            ((seen ++ [obj]).reverse.find? (fun s => itemName s == itemName l)).getD l) := by
        simp only [overlayStep, hl]
        exact hset
      have hpair : ∀ p : Items × Trace, p = (p.1, p.2) := fun p => rfl
      rw [hpair (overlayStep Compare names method _ obj), hstep]
      exact ih (seen ++ [obj]) _

/-- C6: a List call that returns no error, with pairwise distinct Legacy names,
returns the Legacy list container (same ListMeta) whose item at each position
is the last Storage item bearing the name of the Legacy item at that position
when Storage lists one, and the Legacy item itself otherwise; a Storage item
whose name no Legacy item bears is not among the returned items. -/
theorem list_overlay_last_storage (Compare : Option Object → Option Object → Bool)
    (d : DualWriterMode2) (h : (d.List Compare).err = none)
    (hd : ∀ lm legacyList, d.Legacy.list.1 = some (.list lm legacyList) →
      (legacyList.map itemName).Nodup) :
    ∃ lm legacyList slm storageList,
      d.Legacy.list.1 = some (.list lm legacyList) ∧
      d.Storage.list.1 = some (.list slm storageList) ∧
      (d.List Compare).obj = some (.list lm (legacyList.map (fun l =>
        (storageList.reverse.find? (fun s => itemName s == itemName l)).getD l))) ∧
      ∀ s ∈ storageList, itemName s ∉ legacyList.map itemName →
        s ∉ legacyList.map (fun l =>
          (storageList.reverse.find? (fun s => itemName s == itemName l)).getD l) := by
  rcases list_success Compare d h with
    ⟨lm, legacyList, slm, storageList, legacyNames, hl, hp, hs, hobj, htr⟩
  have hnodup := hd lm legacyList (by rw [hl])
  have hcomplete : ∀ l ∈ legacyList, (legacyNames.lookup (itemName l)).isSome := by
    intro l hlmem
    exact parseListFrom_lookup_isSome legacyList 0 [] legacyNames hp (itemName l)
      (Or.inr (List.mem_map_of_mem itemName hlmem))
  have hloop := overlay_items Compare legacyNames "list" legacyList
    (parseList_lookup legacyList legacyNames hp) hcomplete hnodup storageList []
    [Event.call .legacy .list, Event.legacyDuration false mode2Str d.resource "list",
     Event.call .storage .list, Event.storageDuration false mode2Str d.resource "list"]
  simp only [List.reverse_nil, List.find?_nil, Option.getD_none, List.map_id',
    List.nil_append] at hloop
  refine ⟨lm, legacyList, slm, storageList, by rw [hl], by rw [hs], ?_, ?_⟩
  · rw [hobj, hloop]
  · intro s _ hname hmem
    rcases List.mem_map.mp hmem with ⟨l, hlmem, hls⟩
    apply hname
    cases hf : storageList.reverse.find? (fun s => itemName s == itemName l) with
    | none =>
      rw [hf] at hls
      simp only [Option.getD_none] at hls
      rw [← hls]
      exact List.mem_map_of_mem itemName hlmem
    | some s1 =>
      rw [hf] at hls
      simp only [Option.getD_some] at hls
      have hp1 := List.find?_some hf
      rw [hls] at hp1
      rw [beq_iff_eq.mp hp1]
      exact List.mem_map_of_mem itemName hlmem

/-- On `listWriter` the Legacy names `a`, `b` are distinct: slot `a` holds the
Storage item, slot `b` the Legacy item, and the Storage-only `c` is absent. -/
theorem list_overlay_last_storage_witness :
    (listWriter.List specCompare).err = none ∧
    ∃ lm legacyList slm storageList,
      listWriter.Legacy.list.1 = some (.list lm legacyList) ∧
      listWriter.Storage.list.1 = some (.list slm storageList) ∧
      (listWriter.List specCompare).obj = some (.list lm (legacyList.map (fun l =>
        (storageList.reverse.find? (fun s => itemName s == itemName l)).getD l))) ∧
      ∀ s ∈ storageList, itemName s ∉ legacyList.map itemName →
        s ∉ legacyList.map (fun l =>
          (storageList.reverse.find? (fun s => itemName s == itemName l)).getD l) :=
  ⟨rfl, list_overlay_last_storage specCompare listWriter rfl (by
    intro lm legacyList hl
    have hl2 : legacyList = [mkRes "a" "L1" "1" "old", mkRes "b" "L2" "2" "y"] := by
      have := Option.some.inj hl
      injection this with h1 h2
      exact h2.symm
    subst hl2
    decide)⟩

/-- C7: Legacy lists `a` with payload `old`, Storage lists `a` with payload `new`,
and the Comparator tells the two apart.  The only outcome List records for `a`
is `areEqual = true`: the slot is overwritten with the Storage item before the
comparison, so the Storage item is compared with itself. -/
theorem list_outcome_compares_overlaid_slot :
    specCompare (some (.resource (mkRes "a" "S1" "10" "new")))
      (some (.resource (mkRes "a" "L1" "1" "old"))) = false ∧
    (listWriter.List specCompare).err = none ∧
    (listWriter.List specCompare).trace =
      [Event.call .legacy .list, Event.legacyDuration false "2" "res" "list",
       Event.call .storage .list, Event.storageDuration false "2" "res" "list",
       Event.outcome "2" "a" true "list"] ∧
    Event.outcome "2" "a" false "list" ∉ (listWriter.List specCompare).trace := by
  refine ⟨rfl, rfl, rfl, ?_⟩
  decide

/-! ## Create, Update, Delete, DeleteCollection -/

/-- C8: when the Legacy write fails, Create returns exactly the object and the
error Legacy.Create returned, Update returns exactly the object, the `created`
flag and the error Legacy.Update returned, and in both the trace holds no
Storage invocation. -/
theorem legacy_write_failure_returned (Compare : Option Object → Option Object → Bool)
    (d : DualWriterMode2) (inObj : Option Object) (name : String) (objInfo : Option Object)
    (forceAllowCreate : Bool) :
    (∀ e, (d.Legacy.create inObj).2 = some e →
      (d.Create Compare inObj).obj = (d.Legacy.create inObj).1 ∧
      (d.Create Compare inObj).err = some e ∧
      ∀ m, Event.call .storage m ∉ (d.Create Compare inObj).trace) ∧
    (∀ e, (d.Legacy.update name objInfo forceAllowCreate).2.2 = some e →
      (d.Update Compare name objInfo forceAllowCreate).obj =
        (d.Legacy.update name objInfo forceAllowCreate).1 ∧
      (d.Update Compare name objInfo forceAllowCreate).flag =
        (d.Legacy.update name objInfo forceAllowCreate).2.1 ∧
      (d.Update Compare name objInfo forceAllowCreate).err = some e ∧
      ∀ m, Event.call .storage m ∉ (d.Update Compare name objInfo forceAllowCreate).trace) := by
  constructor
  · intro e he
    unfold DualWriterMode2.Create
    simp [he]
  · intro e he
    unfold DualWriterMode2.Update
    simp [he]

/-- Legacy refuses the create and the update with `errDown`: both come back as
Legacy answered them. -/
theorem legacy_write_failure_returned_witness :
    ((failingLegacyWriter.Create specCompare (mkObj "a" "" "" "x")).obj =
        mkObj "a" "" "" "rejected" ∧
      (failingLegacyWriter.Create specCompare (mkObj "a" "" "" "x")).err = some errDown ∧
      ∀ m, Event.call .storage m ∉
        (failingLegacyWriter.Create specCompare (mkObj "a" "" "" "x")).trace) ∧
    ((failingLegacyWriter.Update specCompare "a" (mkObj "a" "" "" "x") false).obj =
        mkObj "a" "L1" "1" "rejected" ∧
      (failingLegacyWriter.Update specCompare "a" (mkObj "a" "" "" "x") false).flag = true ∧
      (failingLegacyWriter.Update specCompare "a" (mkObj "a" "" "" "x") false).err =
        some errDown ∧
      ∀ m, Event.call .storage m ∉
        (failingLegacyWriter.Update specCompare "a" (mkObj "a" "" "" "x") false).trace) :=
  ⟨(legacy_write_failure_returned specCompare failingLegacyWriter (mkObj "a" "" "" "x") "a"
      (mkObj "a" "" "" "x") false).1 errDown rfl,
   (legacy_write_failure_returned specCompare failingLegacyWriter (mkObj "a" "" "" "x") "a"
      (mkObj "a" "" "" "x") false).2 errDown rfl⟩

/-- C9 (as the code has it): for an input that carries a non-empty UID, Create
returns an error and the trace holds no Storage invocation; when Legacy.Create
succeeded the UID check rejects the input and no object is returned, and when
Legacy.Create failed the object and the error are the ones Legacy returned. -/
theorem create_uid_rejected (Compare : Option Object → Option Object → Bool)
    (d : DualWriterMode2) (inObj : Option Object) (accIn : ObjectMeta)
    (hAcc : Accessor inObj = .ok accIn) (hUID : accIn.uid ≠ "") :
    (d.Create Compare inObj).err ≠ none ∧
    (∀ m, Event.call .storage m ∉ (d.Create Compare inObj).trace) ∧
    ((d.Legacy.create inObj).2 = none →
      (d.Create Compare inObj).obj = none ∧
      (d.Create Compare inObj).err = some (errUID accIn.uid)) ∧
    (∀ e, (d.Legacy.create inObj).2 = some e →
      (d.Create Compare inObj).obj = (d.Legacy.create inObj).1 ∧
      (d.Create Compare inObj).err = some e) := by
  unfold DualWriterMode2.Create
  cases he : (d.Legacy.create inObj).2 with
  | some e => simp [he]
  | none => simp [he, hAcc, hUID]

/-- Legacy accepts an input carrying uid `u1`: Create answers the UID error, no
object, and leaves Storage alone. -/
theorem create_uid_rejected_witness :
    Accessor (mkObj "a" "u1" "" "x") = .ok ⟨"a", "u1", "", [], []⟩ ∧
    (mirrorWriter.Create specCompare (mkObj "a" "u1" "" "x")).err ≠ none ∧
    (∀ m, Event.call .storage m ∉
      (mirrorWriter.Create specCompare (mkObj "a" "u1" "" "x")).trace) ∧
    ((mirrorWriter.Legacy.create (mkObj "a" "u1" "" "x")).2 = none →
      (mirrorWriter.Create specCompare (mkObj "a" "u1" "" "x")).obj = none ∧
      (mirrorWriter.Create specCompare (mkObj "a" "u1" "" "x")).err = some (errUID "u1")) ∧
    (∀ e, (mirrorWriter.Legacy.create (mkObj "a" "u1" "" "x")).2 = some e →
      (mirrorWriter.Create specCompare (mkObj "a" "u1" "" "x")).obj =
        (mirrorWriter.Legacy.create (mkObj "a" "u1" "" "x")).1 ∧
      (mirrorWriter.Create specCompare (mkObj "a" "u1" "" "x")).err = some e) :=
  ⟨rfl, create_uid_rejected specCompare mirrorWriter (mkObj "a" "u1" "" "x")
    ⟨"a", "u1", "", [], []⟩ rfl (by decide)⟩

/-- C9 fails as stated: the input carries uid `u1`, Legacy.Create fails and hands
back an object with its error, and Create returns that object, not nil. -/
theorem create_uid_returns_legacy_object :
    Accessor (mkObj "a" "u1" "" "x") = .ok ⟨"a", "u1", "", [], []⟩ ∧
    (failingLegacyWriter.Create specCompare (mkObj "a" "u1" "" "x")).err = some errDown ∧
    (failingLegacyWriter.Create specCompare (mkObj "a" "u1" "" "x")).obj =
      mkObj "a" "" "" "rejected" ∧
    (failingLegacyWriter.Create specCompare (mkObj "a" "u1" "" "x")).obj ≠ none := by
  refine ⟨rfl, rfl, rfl, ?_⟩
  decide

/-- C10: whenever Create, Delete or DeleteCollection returns a nil error, the
object it returns is exactly the object the Legacy store returned for that
operation. -/
theorem mutation_returns_legacy_object (Compare : Option Object → Option Object → Bool)
    (d : DualWriterMode2) (inObj : Option Object) (name : String) :
    ((d.Create Compare inObj).err = none →
      (d.Create Compare inObj).obj = (d.Legacy.create inObj).1) ∧
    ((d.Delete Compare name).err = none →
      (d.Delete Compare name).obj = (d.Legacy.delete name).1) ∧
    ((d.DeleteCollection Compare).err = none →
      (d.DeleteCollection Compare).obj = d.Legacy.deleteCollection.1) := by
  refine ⟨?_, ?_, ?_⟩
  · unfold DualWriterMode2.Create
    cases he : (d.Legacy.create inObj).2 <;> cases ha : Accessor inObj <;>
      cases hs : (d.Storage.create inObj).2 <;> simp [he, ha, hs] <;>
      split <;> simp_all
  · unfold DualWriterMode2.Delete
    cases hs : (d.Storage.delete name).2.2 <;> cases hl : (d.Legacy.delete name).2.2 <;>
      first
        | (simp [hs, hl]; done)
        | (simp [hs, hl]; split <;> simp_all)
  · unfold DualWriterMode2.DeleteCollection
    cases he : d.Legacy.deleteCollection.2 <;>
      cases hx : ExtractList d.Legacy.deleteCollection.1 <;>
      cases hs : d.Storage.deleteCollection.2 <;> simp [he, hx, hs] <;>
      split <;> simp_all

/-- Legacy assigns uid `L1`, rv 1 and Storage assigns uid `S1`, rv 10: Create,
Delete and DeleteCollection return no error and the Legacy object. -/
theorem mutation_returns_legacy_object_witness :
    (mirrorWriter.Create specCompare (mkObj "a" "" "" "x")).err = none ∧
    (mirrorWriter.Delete specCompare "a").err = none ∧
    (mirrorWriter.DeleteCollection specCompare).err = none ∧
    (mirrorWriter.Create specCompare (mkObj "a" "" "" "x")).obj = mkObj "a" "L1" "1" "x" ∧
    (mirrorWriter.Delete specCompare "a").obj = mkObj "a" "L1" "1" "x" ∧
    (mirrorWriter.DeleteCollection specCompare).obj =
      some (.list ⟨"7", ""⟩ [mkRes "a" "L1" "1" "x"]) :=
  ⟨rfl, rfl, rfl,
   (mutation_returns_legacy_object specCompare mirrorWriter (mkObj "a" "" "" "x") "a").1 rfl,
   (mutation_returns_legacy_object specCompare mirrorWriter (mkObj "a" "" "" "x") "a").2.1 rfl,
   (mutation_returns_legacy_object specCompare mirrorWriter (mkObj "a" "" "" "x") "a").2.2 rfl⟩

/-! ## The Comparator only reaches the recorded outcome -/

/-- The overlay loop leaves the same items under any two Comparators, and traces
that differ at most in the recorded verdicts. -/
theorem overlay_compare_irrelevant (C1 C2 : Option Object → Option Object → Bool)
    (names : IndexMap) (method : String) :
    ∀ (storageList cur : Items) (t1 t2 : Trace), t1.map forgetOutcome = t2.map forgetOutcome →
      (storageList.foldl (overlayStep C1 names method) (cur, t1)).1 =
        (storageList.foldl (overlayStep C2 names method) (cur, t2)).1 ∧
      (storageList.foldl (overlayStep C1 names method) (cur, t1)).2.map forgetOutcome =
        (storageList.foldl (overlayStep C2 names method) (cur, t2)).2.map forgetOutcome := by
  intro storageList
  induction storageList with
  | nil => intro cur t1 t2 h; exact ⟨rfl, h⟩
  | cons obj rest ih =>
    intro cur t1 t2 h
    simp only [List.foldl_cons]
    cases hl : names.lookup (getName (some (.resource obj))) with
    | none =>
      have h1 : overlayStep C1 names method (cur, t1) obj = (cur, t1) := by
        simp [overlayStep, hl]
      have h2 : overlayStep C2 names method (cur, t2) obj = (cur, t2) := by
        simp [overlayStep, hl]
      rw [h1, h2]
      exact ih cur t1 t2 h
    | some j =>
      have h1 : overlayStep C1 names method (cur, t1) obj =
          (cur.set j obj, t1 ++ [Event.outcome mode2Str (getName (some (.resource obj)))
            (C1 (some (.resource obj)) ((cur.set j obj)[j]?.map Object.resource)) method]) := by
        simp [overlayStep, hl]
      have h2 : overlayStep C2 names method (cur, t2) obj =
          (cur.set j obj, t2 ++ [Event.outcome mode2Str (getName (some (.resource obj)))
            (C2 (some (.resource obj)) ((cur.set j obj)[j]?.map Object.resource)) method]) := by
        simp [overlayStep, hl]
      rw [h1, h2]
      apply ih
      simp [forgetOutcome, h]

/-- C11: for each of Create, Get, List, Update, Delete and DeleteCollection, two
runs that receive the same store answers under two different Comparators hand
back the same object, the same flag and the same error, and their traces hold
the same events in the same order, differing at most in the recorded verdict. -/
theorem compare_only_changes_outcome (C1 C2 : Option Object → Option Object → Bool)
    (d : DualWriterMode2) (inObj : Option Object) (name : String) (objInfo : Option Object)
    (forceAllowCreate : Bool) :
    ((d.Create C1 inObj).obj = (d.Create C2 inObj).obj ∧
      (d.Create C1 inObj).err = (d.Create C2 inObj).err ∧
      (d.Create C1 inObj).trace.map forgetOutcome =
        (d.Create C2 inObj).trace.map forgetOutcome) ∧
    ((d.Get C1 name).obj = (d.Get C2 name).obj ∧
      (d.Get C1 name).err = (d.Get C2 name).err ∧
      (d.Get C1 name).trace.map forgetOutcome = (d.Get C2 name).trace.map forgetOutcome) ∧
    ((d.List C1).obj = (d.List C2).obj ∧
      (d.List C1).err = (d.List C2).err ∧
      (d.List C1).trace.map forgetOutcome = (d.List C2).trace.map forgetOutcome) ∧
    ((d.Update C1 name objInfo forceAllowCreate).obj =
        (d.Update C2 name objInfo forceAllowCreate).obj ∧
      (d.Update C1 name objInfo forceAllowCreate).flag =
        (d.Update C2 name objInfo forceAllowCreate).flag ∧
      (d.Update C1 name objInfo forceAllowCreate).err =
        (d.Update C2 name objInfo forceAllowCreate).err ∧
      (d.Update C1 name objInfo forceAllowCreate).trace.map forgetOutcome =
        (d.Update C2 name objInfo forceAllowCreate).trace.map forgetOutcome) ∧
    ((d.Delete C1 name).obj = (d.Delete C2 name).obj ∧
      (d.Delete C1 name).flag = (d.Delete C2 name).flag ∧
      (d.Delete C1 name).err = (d.Delete C2 name).err ∧
      (d.Delete C1 name).trace.map forgetOutcome =
        (d.Delete C2 name).trace.map forgetOutcome) ∧
    ((d.DeleteCollection C1).obj = (d.DeleteCollection C2).obj ∧
      (d.DeleteCollection C1).err = (d.DeleteCollection C2).err ∧
      (d.DeleteCollection C1).trace.map forgetOutcome =
        (d.DeleteCollection C2).trace.map forgetOutcome) := by
  refine ⟨?_, ?_, ?_, ?_, ?_, ?_⟩
  · unfold DualWriterMode2.Create
    cases he : (d.Legacy.create inObj).2 <;> cases ha : Accessor inObj <;>
      cases hs : (d.Storage.create inObj).2 <;> simp only [he, ha, hs] <;>
      first
        | (simp [forgetOutcome]; done)
        | (split <;> simp [forgetOutcome])
  · unfold DualWriterMode2.Get
    cases hs : (d.Storage.get name).2 <;> cases hl : (d.Legacy.get name).2 <;>
      simp only [hs, hl] <;>
      first
        | (simp [forgetOutcome]; done)
        | (split <;> simp [forgetOutcome])
  · unfold DualWriterMode2.List
    rcases hl : d.Legacy.list with ⟨ll, el⟩
    rcases hs : d.Storage.list with ⟨sl, es⟩
    simp only []
    cases el with
    | some e => exact ⟨rfl, rfl, rfl⟩
    | none =>
      rcases ll with _ | ⟨r⟩ | ⟨lm, legacyList⟩
      · exact ⟨rfl, rfl, rfl⟩
      · exact ⟨rfl, rfl, rfl⟩
      · simp only [ExtractList]
        cases hp : parseList legacyList with
        | error e => exact ⟨rfl, rfl, rfl⟩
        | ok legacyNames =>
          simp only []
          cases es with
          | some e => exact ⟨rfl, rfl, rfl⟩
          | none =>
            rcases sl with _ | ⟨r⟩ | ⟨slm, storageList⟩
            · exact ⟨rfl, rfl, rfl⟩
            · exact ⟨rfl, rfl, rfl⟩
            · have hloop := overlay_compare_irrelevant C1 C2 legacyNames "list" storageList
                legacyList
                [Event.call .legacy .list, Event.legacyDuration false mode2Str d.resource "list",
                 Event.call .storage .list, Event.storageDuration false mode2Str d.resource "list"]
                [Event.call .legacy .list, Event.legacyDuration false mode2Str d.resource "list",
                 Event.call .storage .list, Event.storageDuration false mode2Str d.resource "list"]
                rfl
              simp only [SetList]
              exact ⟨congrArg (fun l => some (Object.list lm l)) hloop.1, trivial, hloop.2⟩
  · unfold DualWriterMode2.Update
    cases hl : (d.Legacy.update name objInfo forceAllowCreate).2.2 <;>
      cases hs : (d.Storage.update name objInfo forceAllowCreate).2.2 <;>
      simp only [hl, hs] <;>
      simp [forgetOutcome]
  · unfold DualWriterMode2.Delete
    cases hs : (d.Storage.delete name).2.2 <;> cases hl : (d.Legacy.delete name).2.2 <;>
      simp only [hs, hl] <;>
      first
        | (simp [forgetOutcome]; done)
        | (split <;> simp [forgetOutcome])
  · unfold DualWriterMode2.DeleteCollection
    cases he : d.Legacy.deleteCollection.2 <;>
      cases hx : ExtractList d.Legacy.deleteCollection.1 <;>
      cases hs : d.Storage.deleteCollection.2 <;> simp only [he, hx, hs] <;>
      first
        | (simp [forgetOutcome]; done)
        | (split <;> simp [forgetOutcome])

/-! ## Get: errors -/

/-- C12 (amended): Get returns an error exactly when Storage.Get fails with an
error that is not a not-found, or Legacy.Get fails.  In the first case the
error is Storage's and the trace holds no Legacy invocation; otherwise a Legacy
failure is returned as it is (so an object that only Storage holds yields
Legacy's not-found).  When Storage answers not-found and Legacy succeeds, Get
returns a nil error and the Legacy object: exactly what Legacy.Get answered
when Storage handed back no object along with its not-found, or when one of the
two objects carries no metadata, and the Legacy object with its
ResourceVersion overwritten by the one of the object Storage handed back along
with its not-found when both carry metadata. -/
theorem get_error_iff (Compare : Option Object → Option Object → Bool)
    (d : DualWriterMode2) (name : String) :
    ((d.Get Compare name).err ≠ none ↔
      ((∃ e, (d.Storage.get name).2 = some e ∧ IsNotFound e = false) ∨
        (d.Legacy.get name).2 ≠ none)) ∧
    (∀ e, (d.Storage.get name).2 = some e → IsNotFound e = false →
      (d.Get Compare name).err = some e ∧
      (d.Get Compare name).obj = (d.Storage.get name).1 ∧
      ∀ m, Event.call .legacy m ∉ (d.Get Compare name).trace) ∧
    (∀ e, ¬ (∃ eS, (d.Storage.get name).2 = some eS ∧ IsNotFound eS = false) →
      (d.Legacy.get name).2 = some e →
      (d.Get Compare name).err = some e ∧
      (d.Get Compare name).obj = (d.Legacy.get name).1) ∧
    (∀ e, (d.Storage.get name).2 = some e → IsNotFound e = true →
      (d.Legacy.get name).2 = none →
      (d.Get Compare name).err = none ∧
      ((d.Storage.get name).1 = none →
        (d.Get Compare name).obj = (d.Legacy.get name).1) ∧
      (∀ eA, MetaAccessor (d.Storage.get name).1 = .error eA →
        (d.Get Compare name).obj = (d.Legacy.get name).1) ∧
      (∀ eA, MetaAccessor (d.Legacy.get name).1 = .error eA →
        (d.Get Compare name).obj = (d.Legacy.get name).1) ∧
      (∀ mS mL, MetaAccessor (d.Storage.get name).1 = .ok mS →
        MetaAccessor (d.Legacy.get name).1 = .ok mL →
        (d.Get Compare name).obj =
          SetMeta (d.Legacy.get name).1
            { mL with resourceVersion := mS.resourceVersion })) := by
  unfold DualWriterMode2.Get
  refine ⟨?_, ?_, ?_, ?_⟩
  · cases hs : (d.Storage.get name).2 with
    | none => cases hl : (d.Legacy.get name).2 <;> simp [hs, hl]
    | some e =>
      cases hn : IsNotFound e <;> cases hl : (d.Legacy.get name).2 <;> simp [hs, hl, hn]
  · intro e hs hn
    simp [hs, hn]
  · intro e hno hl
    cases hs : (d.Storage.get name).2 with
    | none => simp [hs, hl]
    | some eS =>
      have hn : IsNotFound eS = true := by
        cases h : IsNotFound eS with
        | true => rfl
        | false => exact absurd ⟨eS, hs, h⟩ hno
      simp [hs, hl, hn]
  · intro e hs hn hl
    simp only [hs, hn, hl]
    rcases (d.Storage.get name).1 with _ | ⟨⟨_ | ms, ss⟩ | ⟨slm, sit⟩⟩ <;>
      rcases (d.Legacy.get name).1 with _ | ⟨⟨_ | ml, sl⟩ | ⟨llm, lit⟩⟩ <;>
      simp [updateRV, MetaAccessor, Accessor, SetMeta]

/-- Storage down: Storage's error, Legacy untouched.  Only Storage holds `a`:
Legacy's not-found.  Only Legacy holds `a`: the Legacy object and no error.
Storage hands back `a` at resource version 10 along with a not-found and Legacy
holds `a` at resource version 1: the Legacy object at resource version 10. -/
theorem get_error_iff_witness :
    ((getStorageDown.Get specCompare "a").err = some errDown ∧
      (getStorageDown.Get specCompare "a").obj = none ∧
      ∀ m, Event.call .legacy m ∉ (getStorageDown.Get specCompare "a").trace) ∧
    ((getOnlyStorage.Get specCompare "a").err = some errMissing ∧
      (getOnlyStorage.Get specCompare "a").obj = none) ∧
    (getOnlyLegacy.Get specCompare "a").err = none ∧
    (getOnlyLegacy.Get specCompare "a").obj = mkObj "a" "L1" "1" "x" ∧
    (getStorageNotFoundWithObject.Get specCompare "a").err = none ∧
    (getStorageNotFoundWithObject.Get specCompare "a").obj = mkObj "a" "L1" "10" "x" :=
  ⟨(get_error_iff specCompare getStorageDown "a").2.1 errDown rfl rfl,
   (get_error_iff specCompare getOnlyStorage "a").2.2.1 errMissing (by decide) rfl,
   ((get_error_iff specCompare getOnlyLegacy "a").2.2.2 errMissing rfl rfl rfl).1,
   ((get_error_iff specCompare getOnlyLegacy "a").2.2.2 errMissing rfl rfl rfl).2.1 rfl,
   ((get_error_iff specCompare getStorageNotFoundWithObject "a").2.2.2 errMissing
      rfl rfl rfl).1,
   ((get_error_iff specCompare getStorageNotFoundWithObject "a").2.2.2 errMissing
      rfl rfl rfl).2.2.2.2 ⟨"a", "S1", "10", [], []⟩ ⟨"a", "L1", "1", [], []⟩ rfl rfl⟩

/-- C12 fails as stated: Storage answers Get with a not-found and hands back `a`
at resource version 10 along with it, Legacy answers with `a` at resource
version 1 and no error.  Get returns a nil error and `a` at resource version
10, which is not the object Legacy.Get answered. -/
theorem get_notFound_returns_rewritten_object :
    getStorageNotFoundWithObject.Storage.get "a" =
      (mkObj "a" "S1" "10" "x", some errMissing) ∧
    IsNotFound errMissing = true ∧
    getStorageNotFoundWithObject.Legacy.get "a" = (mkObj "a" "L1" "1" "x", none) ∧
    (getStorageNotFoundWithObject.Get specCompare "a").err = none ∧
    (getStorageNotFoundWithObject.Get specCompare "a").obj = mkObj "a" "L1" "10" "x" ∧
    (getStorageNotFoundWithObject.Get specCompare "a").obj ≠
      (getStorageNotFoundWithObject.Legacy.get "a").1 := by
  refine ⟨rfl, rfl, rfl, rfl, rfl, ?_⟩
  decide

/-! ## Update: the object handed back -/

/-- C13: when Legacy.Update and Storage.Update both succeed and both return
objects carrying metadata, Update returns the Legacy object with its
ResourceVersion replaced by the one of the Storage object and every other field
(name, uid, labels, annotations, payload) as Legacy returned it; the rewrite
leaves the Storage object as Storage returned it. -/
theorem update_rewrites_only_resourceVersion
    (Compare : Option Object → Option Object → Bool)
    (d : DualWriterMode2) (name : String) (objInfo : Option Object) (forceAllowCreate : Bool)
    (mL mS : ObjectMeta) (specL specS : String) (cL cS : Bool)
    (hL : d.Legacy.update name objInfo forceAllowCreate =
      (some (.resource ⟨some mL, specL⟩), cL, none))
    (hS : d.Storage.update name objInfo forceAllowCreate =
      (some (.resource ⟨some mS, specS⟩), cS, none)) :
    (d.Update Compare name objInfo forceAllowCreate).err = none ∧
    (d.Update Compare name objInfo forceAllowCreate).obj =
      some (.resource ⟨some ⟨mL.name, mL.uid, mS.resourceVersion, mL.labels, mL.annotations⟩,
        specL⟩) ∧
    (updateRVInPlace (some (.resource ⟨some mS, specS⟩))
        (some (.resource ⟨some mL, specL⟩))).1 =
      (some (.resource ⟨some mS, specS⟩),
       (d.Update Compare name objInfo forceAllowCreate).obj) := by
  unfold DualWriterMode2.Update
  simp [hL, hS, updateRV, updateRVInPlace, MetaAccessor, Accessor, SetMeta]

/-- Legacy returns `a` with uid `L1` at resource version 2, Storage returns `a`
with uid `S1` at 10: Update hands back uid `L1` at resource version 10. -/
theorem update_rewrites_only_resourceVersion_witness :
    (updateWriter.Update specCompare "a" none false).err = none ∧
    (updateWriter.Update specCompare "a" none false).obj = mkObj "a" "L1" "10" "x" ∧
    (updateRVInPlace (mkObj "a" "S1" "10" "x") (mkObj "a" "L1" "2" "x")).1 =
      (mkObj "a" "S1" "10" "x", (updateWriter.Update specCompare "a" none false).obj) :=
  update_rewrites_only_resourceVersion specCompare updateWriter "a" none false
    ⟨"a", "L1", "2", [], []⟩ ⟨"a", "S1", "10", [], []⟩ "x" "x" false true rfl rfl

/-! ## Storage failures after a Legacy write -/

/-- C14: when the Legacy write succeeds (for Create, on an input whose UID is
empty) and the Storage write fails, Create returns the object and the error
Storage.Create returned, Update returns the object, the flag and the error
Storage.Update returned, and the Storage invocation is the last store
invocation of the trace: nothing is sent to Legacy after the failure. -/
theorem storage_write_failure_returned (Compare : Option Object → Option Object → Bool)
    (d : DualWriterMode2) (inObj : Option Object) (name : String) (objInfo : Option Object)
    (forceAllowCreate : Bool) :
    (∀ accIn e, (d.Legacy.create inObj).2 = none → Accessor inObj = .ok accIn →
      accIn.uid = "" → (d.Storage.create inObj).2 = some e →
      (d.Create Compare inObj).obj = (d.Storage.create inObj).1 ∧
      (d.Create Compare inObj).err = some e ∧
      (d.Create Compare inObj).trace =
        [Event.call .legacy .create, Event.legacyDuration false mode2Str d.resource "create",
         Event.call .storage .create,
         Event.storageDuration true mode2Str d.resource "create"]) ∧
    (∀ e, (d.Legacy.update name objInfo forceAllowCreate).2.2 = none →
      (d.Storage.update name objInfo forceAllowCreate).2.2 = some e →
      (d.Update Compare name objInfo forceAllowCreate).obj =
        (d.Storage.update name objInfo forceAllowCreate).1 ∧
      (d.Update Compare name objInfo forceAllowCreate).flag =
        (d.Storage.update name objInfo forceAllowCreate).2.1 ∧
      (d.Update Compare name objInfo forceAllowCreate).err = some e ∧
      (d.Update Compare name objInfo forceAllowCreate).trace =
        [Event.call .legacy .update, Event.legacyDuration false mode2Str d.resource "update",
         Event.call .storage .update,
         Event.storageDuration true mode2Str d.resource "update"]) := by
  constructor
  · intro accIn e hl ha hu hs
    unfold DualWriterMode2.Create
    simp [hl, ha, hu, hs]
  · intro e hl hs
    unfold DualWriterMode2.Update
    simp [hl, hs]

/-- Legacy accepts the create and the update, Storage is down and hands back a
half-written object: that object and `errDown` reach the caller. -/
theorem storage_write_failure_returned_witness :
    ((storageDownWriter.Create specCompare (mkObj "a" "" "" "x")).obj =
        mkObj "a" "" "" "half" ∧
      (storageDownWriter.Create specCompare (mkObj "a" "" "" "x")).err = some errDown ∧
      (storageDownWriter.Create specCompare (mkObj "a" "" "" "x")).trace =
        [Event.call .legacy .create, Event.legacyDuration false "2" "res" "create",
         Event.call .storage .create, Event.storageDuration true "2" "res" "create"]) ∧
    ((storageDownWriter.Update specCompare "a" (mkObj "a" "" "" "x") false).obj =
        mkObj "a" "" "" "half" ∧
      (storageDownWriter.Update specCompare "a" (mkObj "a" "" "" "x") false).flag = true ∧
      (storageDownWriter.Update specCompare "a" (mkObj "a" "" "" "x") false).err =
        some errDown ∧
      (storageDownWriter.Update specCompare "a" (mkObj "a" "" "" "x") false).trace =
        [Event.call .legacy .update, Event.legacyDuration false "2" "res" "update",
         Event.call .storage .update, Event.storageDuration true "2" "res" "update"]) :=
  ⟨(storage_write_failure_returned specCompare storageDownWriter (mkObj "a" "" "" "x") "a"
      (mkObj "a" "" "" "x") false).1 ⟨"a", "", "", [], []⟩ errDown rfl rfl rfl rfl,
   (storage_write_failure_returned specCompare storageDownWriter (mkObj "a" "" "" "x") "a"
      (mkObj "a" "" "" "x") false).2 errDown rfl rfl⟩

/-! ## A nil error means Legacy committed -/

/-- C15: whenever Create, Update, Delete or DeleteCollection returns a nil error,
the corresponding Legacy operation was invoked (it is in the trace) and itself
returned a nil error. -/
theorem success_implies_legacy_committed (Compare : Option Object → Option Object → Bool)
    (d : DualWriterMode2) (inObj : Option Object) (name : String) (objInfo : Option Object)
    (forceAllowCreate : Bool) :
    ((d.Create Compare inObj).err = none →
      (d.Legacy.create inObj).2 = none ∧
      Event.call .legacy .create ∈ (d.Create Compare inObj).trace) ∧
    ((d.Update Compare name objInfo forceAllowCreate).err = none →
      (d.Legacy.update name objInfo forceAllowCreate).2.2 = none ∧
      Event.call .legacy .update ∈ (d.Update Compare name objInfo forceAllowCreate).trace) ∧
    ((d.Delete Compare name).err = none →
      (d.Legacy.delete name).2.2 = none ∧
      Event.call .legacy .delete ∈ (d.Delete Compare name).trace) ∧
    ((d.DeleteCollection Compare).err = none →
      d.Legacy.deleteCollection.2 = none ∧
      Event.call .legacy .deleteCollection ∈ (d.DeleteCollection Compare).trace) := by
  refine ⟨?_, ?_, ?_, ?_⟩
  · unfold DualWriterMode2.Create
    cases he : (d.Legacy.create inObj).2 <;> cases ha : Accessor inObj <;>
      cases hs : (d.Storage.create inObj).2 <;> simp [he, ha, hs] <;>
      split <;> simp_all
  · unfold DualWriterMode2.Update
    cases hl : (d.Legacy.update name objInfo forceAllowCreate).2.2 <;>
      cases hs : (d.Storage.update name objInfo forceAllowCreate).2.2 <;> simp [hl, hs]
  · unfold DualWriterMode2.Delete
    cases hs : (d.Storage.delete name).2.2 <;> cases hl : (d.Legacy.delete name).2.2 <;>
      first
        | (simp [hs, hl]; done)
        | (simp [hs, hl]; split <;> simp_all)
  · unfold DualWriterMode2.DeleteCollection
    cases he : d.Legacy.deleteCollection.2 <;>
      cases hx : ExtractList d.Legacy.deleteCollection.1 <;>
      cases hs : d.Storage.deleteCollection.2 <;> simp [he, hx, hs] <;>
      split <;> simp_all

/-- Both stores accept the create, the update, the delete and the collection
delete: each call returns a nil error, Legacy answered with a nil error, and
the Legacy invocation is in the trace. -/
theorem success_implies_legacy_committed_witness :
    ((mirrorWriter.Create specCompare (mkObj "a" "" "" "x")).err = none ∧
      (mirrorWriter.Legacy.create (mkObj "a" "" "" "x")).2 = none ∧
      Event.call .legacy .create ∈
        (mirrorWriter.Create specCompare (mkObj "a" "" "" "x")).trace) ∧
    ((updateWriter.Update specCompare "a" none false).err = none ∧
      (updateWriter.Legacy.update "a" none false).2.2 = none ∧
      Event.call .legacy .update ∈ (updateWriter.Update specCompare "a" none false).trace) ∧
    ((mirrorWriter.Delete specCompare "a").err = none ∧
      (mirrorWriter.Legacy.delete "a").2.2 = none ∧
      Event.call .legacy .delete ∈ (mirrorWriter.Delete specCompare "a").trace) ∧
    ((mirrorWriter.DeleteCollection specCompare).err = none ∧
      mirrorWriter.Legacy.deleteCollection.2 = none ∧
      Event.call .legacy .deleteCollection ∈
        (mirrorWriter.DeleteCollection specCompare).trace) :=
  ⟨⟨rfl, (success_implies_legacy_committed specCompare mirrorWriter (mkObj "a" "" "" "x") "a"
      none false).1 rfl⟩,
   ⟨rfl, (success_implies_legacy_committed specCompare updateWriter none "a"
      none false).2.1 rfl⟩,
   ⟨rfl, (success_implies_legacy_committed specCompare mirrorWriter (mkObj "a" "" "" "x") "a"
      none false).2.2.1 rfl⟩,
   ⟨rfl, (success_implies_legacy_committed specCompare mirrorWriter (mkObj "a" "" "" "x") "a"
      none false).2.2.2 rfl⟩⟩

/-! ## DeleteCollection: what Storage is asked to delete -/

/-- C16: Legacy reports that it deleted `a` only.  The index built from that list
is dropped, Storage.DeleteCollection is invoked without it, and Storage reports
that it deleted `a` and `c`; DeleteCollection returns the Legacy list and a nil
error although `c` is not among the items Legacy deleted. -/
theorem deleteCollection_ignores_legacy_list :
    deleteCollectionWriter.Legacy.deleteCollection.1 =
      some (.list ⟨"7", ""⟩ [mkRes "a" "L1" "1" "x"]) ∧
    ExtractList deleteCollectionWriter.Storage.deleteCollection.1 =
      .ok [mkRes "a" "S1" "10" "x", mkRes "c" "S3" "30" "z"] ∧
    "c" ∉ [mkRes "a" "L1" "1" "x"].map itemName ∧
    (deleteCollectionWriter.DeleteCollection specCompare).err = none ∧
    (deleteCollectionWriter.DeleteCollection specCompare).obj =
      some (.list ⟨"7", ""⟩ [mkRes "a" "L1" "1" "x"]) ∧
    (deleteCollectionWriter.DeleteCollection specCompare).trace =
      [Event.call .legacy .deleteCollection,
       Event.legacyDuration false "2" "res" "delete-collection",
       Event.call .storage .deleteCollection,
       Event.storageDuration false "2" "res" "delete-collection",
       Event.outcome "2" "" false "delete-collection"] := by
  refine ⟨rfl, rfl, ?_, rfl, rfl, rfl⟩
  decide

/-! ## The data syncer -/

/-- C17: in a sync pass whose body runs and obtains the Storage list (requested
with limit 1000): with 1000 items or more the syncer returns
`everythingSynced = false` and the record-limit error, and the Storage list
request is its only store invocation (no Legacy list, no Storage.Update, no
Storage.Delete); with fewer than 1000 items the error it returns is the one
of the lock service, so no record-limit error is produced. -/
theorem syncer_record_limit (Compare : Option Object → Option Object → Bool)
    (legacy storage : Store) (resource : String) (serverLockService : ServerLockService)
    (order : ItemsByName → ItemsByName) (storageList : Items)
    (hrun : serverLockService.runsBody = true) (hlist : getList storage = .ok storageList) :
    (maxRecordsSync ≤ storageList.length →
      (mode2DataSyncer Compare legacy storage resource serverLockService order).everythingSynced
        = false ∧
      (mode2DataSyncer Compare legacy storage resource serverLockService order).err
        = some errSyncLimit ∧
      (mode2DataSyncer Compare legacy storage resource serverLockService order).trace
        = [SyncEvent.list .storage 1000]) ∧
    (storageList.length < maxRecordsSync →
      (mode2DataSyncer Compare legacy storage resource serverLockService order).err
        = serverLockService.err) := by
  unfold mode2DataSyncer
  constructor
  · intro hge
    have hge1 : 1000 ≤ storageList.length := hge
    simp [hrun, hlist, hge1, maxRecordsSync]
  · intro hlt
    have hng : ¬ 1000 ≤ storageList.length := Nat.not_le.mpr hlt
    simp only [hrun, hlist, ge_iff_le, maxRecordsSync, hng]
    cases getList legacy <;> simp

/-- Storage lists a thousand records: the pass aborts after the Storage list.
Storage lists two records: the error is the nil error of the lock service. -/
theorem syncer_record_limit_witness :
    ((mode2DataSyncer specCompare syncLegacy syncStorageFull "res" lockRuns id).everythingSynced
        = false ∧
      (mode2DataSyncer specCompare syncLegacy syncStorageFull "res" lockRuns id).err
        = some errSyncLimit ∧
      (mode2DataSyncer specCompare syncLegacy syncStorageFull "res" lockRuns id).trace
        = [SyncEvent.list .storage 1000]) ∧
    (mode2DataSyncer specCompare syncLegacy syncStorage "res" lockRuns id).err = none :=
  ⟨(syncer_record_limit specCompare syncLegacy syncStorageFull "res" lockRuns id
      (List.replicate 1000 (mkRes "z" "S3" "30" "pz")) rfl rfl).1
      (Nat.le_of_eq (List.length_replicate 1000 (mkRes "z" "S3" "30" "pz")).symm),
   (syncer_record_limit specCompare syncLegacy syncStorage "res" lockRuns id
      [mkRes "y" "S2" "20" "old", mkRes "z" "S3" "30" "pz"] rfl rfl).2
      (by simp [maxRecordsSync])⟩

/-- C19: Legacy lists nothing, Storage lists `z` and answers the delete of `z`
with not-found.  The pass counts the delete in `syncErr`, not in `syncSuccess`,
and reports `everythingSynced = false`. -/
theorem syncer_delete_notFound_counts_as_error :
    (syncStorageGone.delete "z").2.2 = some errMissing ∧
    IsNotFound errMissing = true ∧
    mode2DataSyncer specCompare syncLegacyEmpty syncStorageGone "res" lockRuns id =
      ⟨false, none, 1, 0, 1,
       [SyncEvent.list .storage 1000, SyncEvent.list .legacy 0, SyncEvent.delete "z",
        SyncEvent.recordDataSyncerOutcome "2" "res" false,
        SyncEvent.recordDataSyncerDuration false "2" "res"]⟩ := by
  refine ⟨rfl, rfl, ?_⟩
  decide

/-- Removing the bindings of one key leaves the binding of any other key. -/
theorem lookup_filter_ne (m : ItemsByName) (k k1 : String) (h : k1 ≠ k) :
    (m.filter (fun kv => kv.1 != k)).lookup k1 = m.lookup k1 := by
  induction m with
  | nil => rfl
  | cons a rest ih =>
    rcases a with ⟨ak, av⟩
    by_cases hak : ak = k
    · subst hak
      have hb : (k1 == ak) = false := by simpa using h
      simp [List.filter_cons, List.lookup_cons, hb, ih]
    · have hb : (ak != k) = true := by simpa using hak
      simp only [List.filter_cons, hb, if_true, List.lookup_cons, ih]

/-- Reading a map after `itemsByName[k] = v`. -/
theorem lookup_mapPut (m : ItemsByName) (k k1 : String) (v : syncItem) :
    (mapPut m k v).lookup k1 = if k1 = k then some v else m.lookup k1 := by
  unfold mapPut
  by_cases h : k1 = k
  · subst h
    simp [List.lookup_cons]
  · have hb : (k1 == k) = false := by simpa using h
    simp only [List.lookup_cons, hb, h, if_false]
    exact lookup_filter_ne m k k1 h

/-- The assignment `itemsByName[k] = v` keeps one binding per key. -/
theorem keys_nodup_mapPut (m : ItemsByName) (k : String) (v : syncItem)
    (h : (m.map Prod.fst).Nodup) : ((mapPut m k v).map Prod.fst).Nodup := by
  unfold mapPut
  rw [List.map_cons, List.nodup_cons]
  constructor
  · intro hmem
    rcases List.mem_map.mp hmem with ⟨kv, hkv, hk⟩
    have := (List.mem_filter.mp hkv).2
    simp [hk] at this
  · exact List.Nodup.sublist ((List.filter_sublist m).map Prod.fst) h

/-- In a map with one binding per key, the bindings are what `lookup` reads. -/
theorem mem_iff_lookup (m : ItemsByName) (h : (m.map Prod.fst).Nodup) (k : String)
    (v : syncItem) : (k, v) ∈ m ↔ m.lookup k = some v := by
  induction m with
  | nil => simp
  | cons a rest ih =>
    rcases a with ⟨ak, av⟩
    rw [List.map_cons, List.nodup_cons] at h
    rw [List.lookup_cons, List.mem_cons]
    by_cases hk : k = ak
    · subst hk
      simp only [beq_self_eq_true]
      constructor
      · rintro (heq | hmem)
        · simp [(Prod.mk.inj heq).2]
        · exact absurd (List.mem_map_of_mem Prod.fst hmem) h.1
      · intro heq
        left
        simp [Option.some.inj heq]
    · have hb : (k == ak) = false := by simpa using hk
      simp only [hb]
      rw [← ih h.2]
      constructor
      · rintro (heq | hmem)
        · exact absurd (Prod.mk.inj heq).1 hk
        · exact hmem
      · exact Or.inr

/-- The item a list ends with under a name, read off the head and the tail. -/
theorem lastNamed_cons (x : Resource) (xs : Items) (n : String) :
    lastNamed (x :: xs) n =
      match lastNamed xs n with
      | some r => some r
      | none => if itemName x = n then some x else none := by
  unfold lastNamed
  rw [List.reverse_cons, List.find?_append]
  cases List.find? (fun r => itemName r == n) xs.reverse with
  | some r => rfl
  | none =>
    by_cases h : itemName x = n
    · simp [h]
    · simp [h]

/-- What the loop over the Legacy list leaves under each name. -/
theorem foldl_addLegacy_lookup (L : Items) (hL : ∀ r ∈ L, r.metadata.isSome = true) :
    ∀ (m : ItemsByName) (n : String),
      (L.foldl addLegacy m).lookup n =
        match lastNamed L n with
        | some r =>
          some { (m.lookup n).getD emptySyncItem with
                 name := n, objLegacy := some (.resource r) }
        | none => m.lookup n := by
  induction L with
  | nil => intro m n; simp [lastNamed]
  | cons x xs ih =>
    intro m n
    have hx := hL x (List.mem_cons_self x xs)
    rcases x with ⟨_ | meta, spec⟩
    · simp at hx
    · have hname : itemName ⟨some meta, spec⟩ = meta.name := rfl
      have hadd : addLegacy m ⟨some meta, spec⟩ =
          mapPut m meta.name { (m.lookup meta.name).getD emptySyncItem with
            name := meta.name, objLegacy := some (.resource ⟨some meta, spec⟩) } := rfl
      rw [List.foldl_cons, ih (fun r hr => hL r (List.mem_cons_of_mem _ hr)), lastNamed_cons,
        hadd, lookup_mapPut, hname]
      cases lastNamed xs n with
      | some r =>
        by_cases h : n = meta.name
        · subst h; simp
        · simp [h]
      | none =>
        by_cases h : n = meta.name
        · subst h; simp
        · have h2 : ¬ meta.name = n := fun e => h e.symm
          simp [h, h2]

/-- What the loop over the Storage list leaves under each name. -/
theorem foldl_addStorage_lookup (L : Items) (hL : ∀ r ∈ L, r.metadata.isSome = true) :
    ∀ (m : ItemsByName) (n : String),
      (L.foldl addStorage m).lookup n =
        match lastNamed L n with
        | some r =>
          some { (m.lookup n).getD emptySyncItem with
                 name := n, objStorage := some (.resource r) }
        | none => m.lookup n := by
  induction L with
  | nil => intro m n; simp [lastNamed]
  | cons x xs ih =>
    intro m n
    have hx := hL x (List.mem_cons_self x xs)
    rcases x with ⟨_ | meta, spec⟩
    · simp at hx
    · have hname : itemName ⟨some meta, spec⟩ = meta.name := rfl
      have hadd : addStorage m ⟨some meta, spec⟩ =
          mapPut m meta.name { (m.lookup meta.name).getD emptySyncItem with
            name := meta.name, objStorage := some (.resource ⟨some meta, spec⟩) } := rfl
      rw [List.foldl_cons, ih (fun r hr => hL r (List.mem_cons_of_mem _ hr)), lastNamed_cons,
        hadd, lookup_mapPut, hname]
      cases lastNamed xs n with
      | some r =>
        by_cases h : n = meta.name
        · subst h; simp
        · simp [h]
      | none =>
        by_cases h : n = meta.name
        · subst h; simp
        · have h2 : ¬ meta.name = n := fun e => h e.symm
          simp [h, h2]

/-- Both loops keep one binding per name. -/
theorem foldl_add_keys_nodup (L : Items) :
    ∀ m : ItemsByName, (m.map Prod.fst).Nodup →
      ((L.foldl addLegacy m).map Prod.fst).Nodup ∧
      ((L.foldl addStorage m).map Prod.fst).Nodup := by
  induction L with
  | nil => intro m h; exact ⟨h, h⟩
  | cons x xs ih =>
    intro m h
    rcases x with ⟨_ | meta, spec⟩
    · exact ih m h
    · exact ⟨(ih _ (keys_nodup_mapPut m meta.name _ h)).1,
        (ih _ (keys_nodup_mapPut m meta.name _ h)).2⟩

/-- An item without metadata is passed over by both loops. -/
theorem foldl_add_filter (L : Items) :
    ∀ m : ItemsByName,
      L.foldl addLegacy m = (L.filter (fun r => r.metadata.isSome)).foldl addLegacy m ∧
      L.foldl addStorage m = (L.filter (fun r => r.metadata.isSome)).foldl addStorage m := by
  induction L with
  | nil => intro m; exact ⟨rfl, rfl⟩
  | cons x xs ih =>
    intro m
    rcases x with ⟨_ | meta, spec⟩
    · exact ih m
    · simp only [List.filter_cons, Option.isSome_some, if_true, List.foldl_cons]
      exact ⟨(ih _).1, (ih _).2⟩

/-- What the two loops leave under each name, when every listed object carries
metadata: the last Storage object and the last Legacy object of that name. -/
theorem itemsByName_lookup (legacyList storageList : Items)
    (hL : ∀ r ∈ legacyList, r.metadata.isSome = true)
    (hS : ∀ r ∈ storageList, r.metadata.isSome = true) (n : String) :
    (storageList.foldl addStorage (legacyList.foldl addLegacy [])).lookup n =
      match lastNamed storageList n, lastNamed legacyList n with
      | some s, l => some ⟨n, some (.resource s), l.map Object.resource⟩
      | none, some l => some ⟨n, none, some (.resource l)⟩
      | none, none => none := by
  rw [foldl_addStorage_lookup storageList hS, foldl_addLegacy_lookup legacyList hL]
  cases lastNamed storageList n <;> cases lastNamed legacyList n <;> simp [emptySyncItem]

/-- The events a turn of the loop over `itemsByName` adds do not depend on the
counters or on the events before it. -/
theorem syncStep_trace (Compare : Option Object → Option Object → Bool) (storage : Store)
    (st : SyncState) (kv : String × syncItem) :
    (syncStep Compare storage st kv).trace =
      st.trace ++ (syncStep Compare storage ⟨0, 0, 0, []⟩ kv).trace := by
  simp only [syncStep, syncUpsert, syncDelete]
  repeat' split
  all_goals simp_all

/-- The trace of the loop over `itemsByName`: the events of its turns, in order. -/
theorem syncLoop_trace (Compare : Option Object → Option Object → Bool) (storage : Store) :
    ∀ (l : ItemsByName) (st : SyncState),
      (l.foldl (syncStep Compare storage) st).trace =
        st.trace ++ l.flatMap (fun kv => (syncStep Compare storage ⟨0, 0, 0, []⟩ kv).trace) := by
  intro l
  induction l with
  | nil => intro st; simp
  | cons kv rest ih =>
    intro st
    rw [List.foldl_cons, ih, syncStep_trace, List.flatMap_cons, List.append_assoc]

/-- A turn for a name only Legacy holds: one upsert, with ResourceVersion and
UID cleared. -/
theorem syncStep_events_insert (Compare : Option Object → Option Object → Bool)
    (storage : Store) (n nm : String) (mL : ObjectMeta) (specL : String) :
    (syncStep Compare storage ⟨0, 0, 0, []⟩
      (n, ⟨nm, none, some (.resource ⟨some mL, specL⟩)⟩)).trace =
      [SyncEvent.update n
        (some (.resource ⟨some ⟨mL.name, "", "", mL.labels, mL.annotations⟩, specL⟩)) true] := by
  simp only [syncStep, syncUpsert, syncDelete, MetaAccessor, Accessor, SetMeta]
  repeat' split
  all_goals simp_all

/-- A turn for a name both stores hold: nothing when the Comparator finds the
two objects equal, and otherwise one upsert, with the ResourceVersion and the
UID of the Storage object. -/
theorem syncStep_events_both (Compare : Option Object → Option Object → Bool)
    (storage : Store) (n nm : String) (mL mS : ObjectMeta) (specL specS : String) :
    (syncStep Compare storage ⟨0, 0, 0, []⟩
      (n, ⟨nm, some (.resource ⟨some mS, specS⟩), some (.resource ⟨some mL, specL⟩)⟩)).trace =
      if Compare (some (.resource ⟨some mL, specL⟩)) (some (.resource ⟨some mS, specS⟩)) then []
      else
        [SyncEvent.update n
          (some (.resource
            ⟨some ⟨mL.name, mS.uid, mS.resourceVersion, mL.labels, mL.annotations⟩, specL⟩))
          true] := by
  simp only [syncStep, syncUpsert, syncDelete, MetaAccessor, Accessor, SetMeta]
  repeat' split
  all_goals simp_all

/-- A turn for a name only Storage holds: one delete. -/
theorem syncStep_events_delete (Compare : Option Object → Option Object → Bool)
    (storage : Store) (n nm : String) (s : Object) :
    (syncStep Compare storage ⟨0, 0, 0, []⟩ (n, ⟨nm, some s, none⟩)).trace =
      [SyncEvent.delete n] := by
  simp only [syncStep, syncUpsert, syncDelete]
  repeat' split
  all_goals simp_all

/-- The trace of a pass that obtains both lists: the two list requests, the
events of the turns over `itemsByName`, and the two metrics records. -/
theorem syncer_trace (Compare : Option Object → Option Object → Bool)
    (legacy storage : Store) (resource : String) (serverLockService : ServerLockService)
    (order : ItemsByName → ItemsByName) (legacyList storageList : Items)
    (hrun : serverLockService.runsBody = true) (hS : getList storage = .ok storageList)
    (hlt : storageList.length < maxRecordsSync) (hL : getList legacy = .ok legacyList) :
    (mode2DataSyncer Compare legacy storage resource serverLockService order).trace =
      [SyncEvent.list .storage 1000, SyncEvent.list .legacy 0] ++
      (order (storageList.foldl addStorage (legacyList.foldl addLegacy []))).flatMap
        (fun kv => (syncStep Compare storage ⟨0, 0, 0, []⟩ kv).trace) ++
      [SyncEvent.recordDataSyncerOutcome mode2Str resource
         (mode2DataSyncer Compare legacy storage resource serverLockService order).everythingSynced,
       SyncEvent.recordDataSyncerDuration false mode2Str resource] := by
  have hng : ¬ 1000 ≤ storageList.length := Nat.not_le.mpr hlt
  unfold mode2DataSyncer
  simp [hrun, hS, hL, maxRecordsSync, hng, syncLoop_trace]

/-- When a pass shows a Storage mutation, its body ran and obtained both lists,
the Storage list under the limit. -/
theorem syncer_mutation_lists (Compare : Option Object → Option Object → Bool)
    (legacy storage : Store) (resource : String) (serverLockService : ServerLockService)
    (order : ItemsByName → ItemsByName)
    (h : mutatedNames
      (mode2DataSyncer Compare legacy storage resource serverLockService order).trace ≠ []) :
    serverLockService.runsBody = true ∧
    ∃ legacyList storageList, getList storage = .ok storageList ∧
      storageList.length < maxRecordsSync ∧ getList legacy = .ok legacyList := by
  unfold mode2DataSyncer at h
  cases hrun : serverLockService.runsBody with
  | false => simp [hrun, mutatedNames] at h
  | true =>
    cases hS : getList storage with
    | error e => simp [hrun, hS, mutatedNames] at h
    | ok storageList =>
      by_cases hge : 1000 ≤ storageList.length
      · simp [hrun, hS, hge, maxRecordsSync, mutatedNames] at h
      · cases hL : getList legacy with
        | error e => simp [hrun, hS, hge, hL, maxRecordsSync, mutatedNames] at h
        | ok legacyList =>
          exact ⟨rfl, legacyList, storageList, rfl, Nat.not_le.mp hge, rfl⟩

/-- The item a list ends with under a name, among its items that carry
metadata, is one of its items, carries metadata, and bears that name. -/
theorem lastNamed_filter_meta (l : Items) (n : String) (r : Resource)
    (h : lastNamed (l.filter (fun r => r.metadata.isSome)) n = some r) :
    ∃ m spec, r = ⟨some m, spec⟩ ∧ m.name = n ∧ r ∈ l := by
  unfold lastNamed at h
  have hmem := List.mem_of_find?_eq_some h
  have hp := List.find?_some h
  rw [List.mem_reverse, List.mem_filter] at hmem
  rcases r with ⟨_ | m, spec⟩
  · simp at hmem
  · refine ⟨m, spec, rfl, ?_, hmem.1⟩
    simpa [itemName, getName, Accessor] using hp

/-- The bindings the loop over `itemsByName` ranges over, whatever the order:
a name only Legacy holds, a name both stores hold, or a name only Storage
holds, each with the last object of that name that carries metadata. -/
theorem itemsByName_mem (order : ItemsByName → ItemsByName)
    (hperm : ∀ m, (order m).Perm m) (legacyList storageList : Items)
    (k : String) (item : syncItem) :
    (k, item) ∈ order (storageList.foldl addStorage (legacyList.foldl addLegacy [])) ↔
      (∃ mL specL,
        lastNamed (legacyList.filter (fun r => r.metadata.isSome)) k = some ⟨some mL, specL⟩ ∧
        lastNamed (storageList.filter (fun r => r.metadata.isSome)) k = none ∧
        item = ⟨k, none, some (.resource ⟨some mL, specL⟩)⟩) ∨
      (∃ mL specL mS specS,
        lastNamed (legacyList.filter (fun r => r.metadata.isSome)) k = some ⟨some mL, specL⟩ ∧
        lastNamed (storageList.filter (fun r => r.metadata.isSome)) k = some ⟨some mS, specS⟩ ∧
        item = ⟨k, some (.resource ⟨some mS, specS⟩), some (.resource ⟨some mL, specL⟩)⟩) ∨
      (∃ mS specS,
        lastNamed (legacyList.filter (fun r => r.metadata.isSome)) k = none ∧
        lastNamed (storageList.filter (fun r => r.metadata.isSome)) k = some ⟨some mS, specS⟩ ∧
        item = ⟨k, some (.resource ⟨some mS, specS⟩), none⟩) := by
  have hL : ∀ r ∈ legacyList.filter (fun r => r.metadata.isSome), r.metadata.isSome = true :=
    fun r hr => (List.mem_filter.mp hr).2
  have hS : ∀ r ∈ storageList.filter (fun r => r.metadata.isSome), r.metadata.isSome = true :=
    fun r hr => (List.mem_filter.mp hr).2
  have hnodup := (foldl_add_keys_nodup storageList (legacyList.foldl addLegacy [])
    (foldl_add_keys_nodup legacyList [] (by simp)).1).2
  rw [(hperm _).mem_iff, mem_iff_lookup _ hnodup, (foldl_add_filter storageList _).2,
    (foldl_add_filter legacyList _).1, itemsByName_lookup _ _ hL hS]
  cases hSn : lastNamed (storageList.filter (fun r => r.metadata.isSome)) k with
  | none =>
    cases hLn : lastNamed (legacyList.filter (fun r => r.metadata.isSome)) k with
    | none => simp
    | some l =>
      rcases lastNamed_filter_meta legacyList k l hLn with ⟨mL, specL, rfl, _, _⟩
      show some (syncItem.mk k none (some (.resource ⟨some mL, specL⟩))) = some item ↔ _
      constructor
      · intro h
        exact Or.inl ⟨mL, specL, rfl, rfl, (Option.some.inj h).symm⟩
      · rintro (⟨m1, s1, h1, _, h3⟩ | ⟨m1, s1, m2, s2, _, h2, _⟩ | ⟨m2, s2, h1, _, _⟩)
        · cases h1
          rw [h3]
        · cases h2
        · cases h1
  | some s =>
    rcases lastNamed_filter_meta storageList k s hSn with ⟨mS, specS, rfl, _, _⟩
    cases hLn : lastNamed (legacyList.filter (fun r => r.metadata.isSome)) k with
    | none =>
      show some (syncItem.mk k (some (.resource ⟨some mS, specS⟩)) none) = some item ↔ _
      constructor
      · intro h
        exact Or.inr (Or.inr ⟨mS, specS, rfl, rfl, (Option.some.inj h).symm⟩)
      · rintro (⟨m1, s1, h1, _, _⟩ | ⟨m1, s1, m2, s2, h1, _, _⟩ | ⟨m2, s2, _, h2, h3⟩)
        · cases h1
        · cases h1
        · cases h2
          rw [h3]
    | some l =>
      rcases lastNamed_filter_meta legacyList k l hLn with ⟨mL, specL, rfl, _, _⟩
      show some (syncItem.mk k (some (.resource ⟨some mS, specS⟩))
        (some (.resource ⟨some mL, specL⟩))) = some item ↔ _
      constructor
      · intro h
        exact Or.inr (Or.inl ⟨mL, specL, mS, specS, rfl, rfl, (Option.some.inj h).symm⟩)
      · rintro (⟨m1, s1, _, h2, _⟩ | ⟨m1, s1, m2, s2, h1, h2, h3⟩ | ⟨m2, s2, h1, _, _⟩)
        · cases h2
        · cases h1
          cases h2
          rw [h3]
        · cases h1

/-- The upserts of a pass that obtains both lists: exactly one for each name
Legacy holds that Storage does not hold or holds with an object the Comparator
tells apart from the Legacy one, each with `forceAllowCreate = true` and with
the Legacy object carrying the ResourceVersion and UID of the Storage object,
or none when Storage does not hold the name. -/
theorem syncer_update_mem (Compare : Option Object → Option Object → Bool)
    (legacy storage : Store) (resource : String) (serverLockService : ServerLockService)
    (order : ItemsByName → ItemsByName) (legacyList storageList : Items)
    (hrun : serverLockService.runsBody = true) (hS : getList storage = .ok storageList)
    (hlt : storageList.length < maxRecordsSync) (hL : getList legacy = .ok legacyList)
    (hperm : ∀ m, (order m).Perm m) (name : String) (objInfo : Option Object) (f : Bool) :
    SyncEvent.update name objInfo f ∈
        (mode2DataSyncer Compare legacy storage resource serverLockService order).trace ↔
      ∃ mL specL,
        lastNamed (legacyList.filter (fun r => r.metadata.isSome)) name =
          some ⟨some mL, specL⟩ ∧
        f = true ∧
        ((lastNamed (storageList.filter (fun r => r.metadata.isSome)) name = none ∧
            objInfo = some (.resource
              ⟨some ⟨mL.name, "", "", mL.labels, mL.annotations⟩, specL⟩)) ∨
          ∃ mS specS,
            lastNamed (storageList.filter (fun r => r.metadata.isSome)) name =
              some ⟨some mS, specS⟩ ∧
            Compare (some (.resource ⟨some mL, specL⟩))
              (some (.resource ⟨some mS, specS⟩)) = false ∧
            objInfo = some (.resource
              ⟨some ⟨mL.name, mS.uid, mS.resourceVersion, mL.labels, mL.annotations⟩,
               specL⟩)) := by
  rw [syncer_trace Compare legacy storage resource serverLockService order legacyList
    storageList hrun hS hlt hL]
  simp only [List.mem_append, List.mem_flatMap, List.mem_cons, List.not_mem_nil,
    reduceCtorEq, false_or, or_false, Prod.exists]
  constructor
  · rintro ⟨k, item, hmem, hev⟩
    rcases (itemsByName_mem order hperm legacyList storageList k item).mp hmem with
      ⟨mL, specL, h1, h2, rfl⟩ | ⟨mL, specL, mS, specS, h1, h2, rfl⟩ | ⟨mS, specS, h1, h2, rfl⟩
    · rw [syncStep_events_insert] at hev
      simp only [List.mem_singleton, SyncEvent.update.injEq] at hev
      rcases hev with ⟨rfl, rfl, rfl⟩
      exact ⟨mL, specL, h1, rfl, Or.inl ⟨h2, rfl⟩⟩
    · rw [syncStep_events_both] at hev
      cases hC : Compare (some (.resource ⟨some mL, specL⟩))
          (some (.resource ⟨some mS, specS⟩)) with
      | true => simp [hC] at hev
      | false =>
        simp only [hC, Bool.false_eq_true, if_false, List.mem_singleton,
          SyncEvent.update.injEq] at hev
        rcases hev with ⟨rfl, rfl, rfl⟩
        exact ⟨mL, specL, h1, rfl, Or.inr ⟨mS, specS, h2, hC, rfl⟩⟩
    · rw [syncStep_events_delete] at hev
      simp at hev
  · rintro ⟨mL, specL, h1, rfl, (⟨h2, rfl⟩ | ⟨mS, specS, h2, hC, rfl⟩)⟩
    · refine ⟨name, _, (itemsByName_mem order hperm legacyList storageList name _).mpr
        (Or.inl ⟨mL, specL, h1, h2, rfl⟩), ?_⟩
      rw [syncStep_events_insert]
      simp
    · refine ⟨name, _, (itemsByName_mem order hperm legacyList storageList name _).mpr
        (Or.inr (Or.inl ⟨mL, specL, mS, specS, h1, h2, rfl⟩)), ?_⟩
      rw [syncStep_events_both, hC]
      simp

/-- The deletes of a pass that obtains both lists: exactly one for each name
Storage holds and Legacy does not. -/
theorem syncer_delete_mem (Compare : Option Object → Option Object → Bool)
    (legacy storage : Store) (resource : String) (serverLockService : ServerLockService)
    (order : ItemsByName → ItemsByName) (legacyList storageList : Items)
    (hrun : serverLockService.runsBody = true) (hS : getList storage = .ok storageList)
    (hlt : storageList.length < maxRecordsSync) (hL : getList legacy = .ok legacyList)
    (hperm : ∀ m, (order m).Perm m) (name : String) :
    SyncEvent.delete name ∈
        (mode2DataSyncer Compare legacy storage resource serverLockService order).trace ↔
      lastNamed (legacyList.filter (fun r => r.metadata.isSome)) name = none ∧
      (lastNamed (storageList.filter (fun r => r.metadata.isSome)) name).isSome = true := by
  rw [syncer_trace Compare legacy storage resource serverLockService order legacyList
    storageList hrun hS hlt hL]
  simp only [List.mem_append, List.mem_flatMap, List.mem_cons, List.not_mem_nil,
    reduceCtorEq, false_or, or_false, Prod.exists]
  constructor
  · rintro ⟨k, item, hmem, hev⟩
    rcases (itemsByName_mem order hperm legacyList storageList k item).mp hmem with
      ⟨mL, specL, h1, h2, rfl⟩ | ⟨mL, specL, mS, specS, h1, h2, rfl⟩ | ⟨mS, specS, h1, h2, rfl⟩
    · rw [syncStep_events_insert] at hev
      simp at hev
    · rw [syncStep_events_both] at hev
      split at hev <;> simp at hev
    · rw [syncStep_events_delete] at hev
      simp only [List.mem_singleton, SyncEvent.delete.injEq] at hev
      subst hev
      exact ⟨h1, by rw [h2]; rfl⟩
  · rintro ⟨h1, h2⟩
    cases hSn : lastNamed (storageList.filter (fun r => r.metadata.isSome)) name with
    | none => simp [hSn] at h2
    | some s =>
      rcases lastNamed_filter_meta storageList name s hSn with ⟨mS, specS, rfl, _, _⟩
      refine ⟨name, _, (itemsByName_mem order hperm legacyList storageList name _).mpr
        (Or.inr (Or.inr ⟨mS, specS, h1, hSn, rfl⟩)), ?_⟩
      rw [syncStep_events_delete]
      simp

/-- A list holds an item under a name exactly when one of its items bears it. -/
theorem lastNamed_isSome_iff (l : Items) (n : String) :
    (lastNamed l n).isSome = true ↔ n ∈ l.map itemName := by
  unfold lastNamed
  rw [List.find?_isSome]
  simp only [List.mem_reverse, beq_iff_eq, List.mem_map]

/-- A list holds no item under a name exactly when none of its items bears it. -/
theorem lastNamed_eq_none_iff (l : Items) (n : String) :
    lastNamed l n = none ↔ n ∉ l.map itemName := by
  rw [← lastNamed_isSome_iff]
  cases lastNamed l n <;> simp

/-- A turn of the loop over `itemsByName` mutates at most its own name, once. -/
theorem syncStep_mutatedNames (Compare : Option Object → Option Object → Bool)
    (storage : Store) (kv : String × syncItem) :
    mutatedNames (syncStep Compare storage ⟨0, 0, 0, []⟩ kv).trace = [] ∨
    mutatedNames (syncStep Compare storage ⟨0, 0, 0, []⟩ kv).trace = [kv.1] := by
  simp only [syncStep, syncUpsert, syncDelete]
  repeat' split
  all_goals simp_all [mutatedNames]

/-- The names mutated by the turns over a list of bindings form a sublist of
its keys. -/
theorem syncLoop_mutatedNames_sublist (Compare : Option Object → Option Object → Bool)
    (storage : Store) (l : ItemsByName) :
    (mutatedNames (l.flatMap
      (fun kv => (syncStep Compare storage ⟨0, 0, 0, []⟩ kv).trace))).Sublist
      (l.map Prod.fst) := by
  induction l with
  | nil => simp [mutatedNames]
  | cons kv rest ih =>
    have happ : mutatedNames ((kv :: rest).flatMap
        (fun kv => (syncStep Compare storage ⟨0, 0, 0, []⟩ kv).trace)) =
        mutatedNames (syncStep Compare storage ⟨0, 0, 0, []⟩ kv).trace ++
        mutatedNames (rest.flatMap
          (fun kv => (syncStep Compare storage ⟨0, 0, 0, []⟩ kv).trace)) := by
      simp [mutatedNames, List.filterMap_append]
    rw [happ, List.map_cons]
    rcases syncStep_mutatedNames Compare storage kv with h | h
    · rw [h, List.nil_append]
      exact List.Sublist.cons _ ih
    · rw [h]
      exact List.Sublist.cons₂ _ ih

/-- In any pass, no name is mutated twice. -/
theorem syncer_mutatedNames_nodup (Compare : Option Object → Option Object → Bool)
    (legacy storage : Store) (resource : String) (serverLockService : ServerLockService)
    (order : ItemsByName → ItemsByName) (hperm : ∀ m, (order m).Perm m) :
    (mutatedNames
      (mode2DataSyncer Compare legacy storage resource serverLockService order).trace).Nodup := by
  by_cases hne : mutatedNames
      (mode2DataSyncer Compare legacy storage resource serverLockService order).trace = []
  · rw [hne]
    exact List.nodup_nil
  · rcases syncer_mutation_lists Compare legacy storage resource serverLockService order hne
      with ⟨hrun, legacyList, storageList, hS, hlt, hL⟩
    rw [syncer_trace Compare legacy storage resource serverLockService order legacyList
      storageList hrun hS hlt hL]
    have hsplit : ∀ (a b c : List SyncEvent),
        mutatedNames (a ++ b ++ c) = mutatedNames a ++ mutatedNames b ++ mutatedNames c := by
      intro a b c
      simp [mutatedNames, List.filterMap_append]
    rw [hsplit]
    have h1 : mutatedNames [SyncEvent.list .storage 1000, SyncEvent.list .legacy 0] = [] := rfl
    have h2 : ∀ b, mutatedNames [SyncEvent.recordDataSyncerOutcome mode2Str resource b,
        SyncEvent.recordDataSyncerDuration false mode2Str resource] = [] := fun _ => rfl
    rw [h1, h2, List.nil_append, List.append_nil]
    apply List.Nodup.sublist (syncLoop_mutatedNames_sublist Compare storage _)
    apply ((hperm _).map Prod.fst).nodup_iff.mpr
    exact (foldl_add_keys_nodup storageList (legacyList.foldl addLegacy [])
      (foldl_add_keys_nodup legacyList [] (by simp)).1).2

/-- C18: in a sync pass whose body obtains both lists, the Storage list under
the limit and every listed object carrying metadata, whatever the order in
which the map is ranged over: every Storage.Update is made with
`forceAllowCreate = true`; a name is upserted exactly when Legacy holds it and
Storage either does not hold it or holds an object the Comparator tells apart
from the Legacy one; a name is deleted exactly when Storage holds it and Legacy
does not; and no name is mutated twice. -/
theorem syncer_mutations_exact (Compare : Option Object → Option Object → Bool)
    (legacy storage : Store) (resource : String) (serverLockService : ServerLockService)
    (order : ItemsByName → ItemsByName) (legacyList storageList : Items)
    (hrun : serverLockService.runsBody = true) (hS : getList storage = .ok storageList)
    (hlt : storageList.length < maxRecordsSync) (hL : getList legacy = .ok legacyList)
    (hmL : ∀ r ∈ legacyList, r.metadata.isSome = true)
    (hmS : ∀ r ∈ storageList, r.metadata.isSome = true)
    (hperm : ∀ m, (order m).Perm m) :
    (∀ name objInfo f, SyncEvent.update name objInfo f ∈
        (mode2DataSyncer Compare legacy storage resource serverLockService order).trace →
      f = true) ∧
    (∀ name, (∃ objInfo, SyncEvent.update name objInfo true ∈
        (mode2DataSyncer Compare legacy storage resource serverLockService order).trace) ↔
      (name ∈ legacyList.map itemName ∧
        (name ∉ storageList.map itemName ∨
          ∃ l s, lastNamed legacyList name = some l ∧ lastNamed storageList name = some s ∧
            Compare (some (.resource l)) (some (.resource s)) = false))) ∧
    (∀ name, SyncEvent.delete name ∈
        (mode2DataSyncer Compare legacy storage resource serverLockService order).trace ↔
      (name ∈ storageList.map itemName ∧ name ∉ legacyList.map itemName)) ∧
    (mutatedNames
      (mode2DataSyncer Compare legacy storage resource serverLockService order).trace).Nodup := by
  have hfL : legacyList.filter (fun r => r.metadata.isSome) = legacyList :=
    List.filter_eq_self.mpr hmL
  have hfS : storageList.filter (fun r => r.metadata.isSome) = storageList :=
    List.filter_eq_self.mpr hmS
  refine ⟨?_, ?_, ?_, ?_⟩
  · intro name objInfo f h
    rcases (syncer_update_mem Compare legacy storage resource serverLockService order
      legacyList storageList hrun hS hlt hL hperm name objInfo f).mp h with
      ⟨mL, specL, _, hf, _⟩
    exact hf
  · intro name
    constructor
    · rintro ⟨objInfo, h⟩
      rcases (syncer_update_mem Compare legacy storage resource serverLockService order
        legacyList storageList hrun hS hlt hL hperm name objInfo true).mp h with
        ⟨mL, specL, h1, _, h2⟩
      rw [hfL] at h1
      rw [hfS] at h2
      refine ⟨(lastNamed_isSome_iff legacyList name).mp (by rw [h1]; rfl), ?_⟩
      rcases h2 with ⟨h3, _⟩ | ⟨mS, specS, h3, hC, _⟩
      · exact Or.inl ((lastNamed_eq_none_iff storageList name).mp h3)
      · exact Or.inr ⟨_, _, h1, h3, hC⟩
    · rintro ⟨hmem, hcase⟩
      have hsome := (lastNamed_isSome_iff legacyList name).mpr hmem
      cases hLn : lastNamed legacyList name with
      | none => simp [hLn] at hsome
      | some l =>
        rcases lastNamed_filter_meta legacyList name l (by rw [hfL]; exact hLn) with
          ⟨mL, specL, rfl, _, _⟩
        rcases hcase with hno | ⟨l1, s, h1, h2, hC⟩
        · refine ⟨_, (syncer_update_mem Compare legacy storage resource serverLockService
            order legacyList storageList hrun hS hlt hL hperm name _ true).mpr
            ⟨mL, specL, by rw [hfL]; exact hLn, rfl, Or.inl ⟨?_, rfl⟩⟩⟩
          rw [hfS]
          exact (lastNamed_eq_none_iff storageList name).mpr hno
        · rw [hLn] at h1
          cases h1
          rcases lastNamed_filter_meta storageList name s (by rw [hfS]; exact h2) with
            ⟨mS, specS, rfl, _, _⟩
          exact ⟨_, (syncer_update_mem Compare legacy storage resource serverLockService
            order legacyList storageList hrun hS hlt hL hperm name _ true).mpr
            ⟨mL, specL, by rw [hfL]; exact hLn, rfl,
              Or.inr ⟨mS, specS, by rw [hfS]; exact h2, hC, rfl⟩⟩⟩
  · intro name
    rw [syncer_delete_mem Compare legacy storage resource serverLockService order
      legacyList storageList hrun hS hlt hL hperm name, hfL, hfS, lastNamed_isSome_iff,
      lastNamed_eq_none_iff]
    exact And.comm
  · exact syncer_mutatedNames_nodup Compare legacy storage resource serverLockService order
      hperm

/-- C20: every object a sync pass hands to Storage.Update is the Legacy object
of that name with only ResourceVersion and UID rewritten: to the ResourceVersion
and UID of the Storage object of that name when Storage lists one, and to the
empty string when it lists none; name, labels, annotations and payload are
those of the Legacy object. -/
theorem syncer_upsert_object (Compare : Option Object → Option Object → Bool)
    (legacy storage : Store) (resource : String) (serverLockService : ServerLockService)
    (order : ItemsByName → ItemsByName) (hperm : ∀ m, (order m).Perm m)
    (name : String) (objInfo : Option Object) (f : Bool)
    (h : SyncEvent.update name objInfo f ∈
      (mode2DataSyncer Compare legacy storage resource serverLockService order).trace) :
    ∃ legacyList storageList mL specL,
      getList legacy = .ok legacyList ∧ getList storage = .ok storageList ∧
      lastNamed (legacyList.filter (fun r => r.metadata.isSome)) name =
        some ⟨some mL, specL⟩ ∧
      mL.name = name ∧
      ((lastNamed (storageList.filter (fun r => r.metadata.isSome)) name = none ∧
          objInfo = some (.resource
            ⟨some ⟨mL.name, "", "", mL.labels, mL.annotations⟩, specL⟩)) ∨
        ∃ mS specS,
          lastNamed (storageList.filter (fun r => r.metadata.isSome)) name =
            some ⟨some mS, specS⟩ ∧
          objInfo = some (.resource
            ⟨some ⟨mL.name, mS.uid, mS.resourceVersion, mL.labels, mL.annotations⟩,
             specL⟩)) := by
  have hne : mutatedNames
      (mode2DataSyncer Compare legacy storage resource serverLockService order).trace ≠ [] := by
    intro hnil
    have hmem : name ∈ mutatedNames
        (mode2DataSyncer Compare legacy storage resource serverLockService order).trace := by
      unfold mutatedNames
      rw [List.mem_filterMap]
      exact ⟨_, h, rfl⟩
    rw [hnil] at hmem
    simp at hmem
  rcases syncer_mutation_lists Compare legacy storage resource serverLockService order hne
    with ⟨hrun, legacyList, storageList, hS, hlt, hL⟩
  rcases (syncer_update_mem Compare legacy storage resource serverLockService order
    legacyList storageList hrun hS hlt hL hperm name objInfo f).mp h with
    ⟨mL, specL, h1, _, h2⟩
  rcases lastNamed_filter_meta legacyList name _ h1 with ⟨m1, s1, heq, hname, _⟩
  cases heq
  refine ⟨legacyList, storageList, mL, specL, hL, hS, h1, hname, ?_⟩
  rcases h2 with ⟨h3, h4⟩ | ⟨mS, specS, h3, _, h4⟩
  · exact Or.inl ⟨h3, h4⟩
  · exact Or.inr ⟨mS, specS, h3, h4⟩

/-- Legacy lists `x`, `y` and Storage lists another `y` and `z`: the pass
deletes `z`, upserts `y` and upserts `x`, and nothing else. -/
theorem syncer_mutations_exact_witness :
    mutatedNames
      (mode2DataSyncer specCompare syncLegacy syncStorage "res" lockRuns id).trace =
      ["z", "y", "x"] ∧
    (∀ name objInfo f, SyncEvent.update name objInfo f ∈
        (mode2DataSyncer specCompare syncLegacy syncStorage "res" lockRuns id).trace →
      f = true) ∧
    (∀ name, (∃ objInfo, SyncEvent.update name objInfo true ∈
        (mode2DataSyncer specCompare syncLegacy syncStorage "res" lockRuns id).trace) ↔
      (name ∈ [mkRes "x" "L1" "1" "px", mkRes "y" "L2" "2" "py"].map itemName ∧
        (name ∉ [mkRes "y" "S2" "20" "old", mkRes "z" "S3" "30" "pz"].map itemName ∨
          ∃ l s, lastNamed [mkRes "x" "L1" "1" "px", mkRes "y" "L2" "2" "py"] name = some l ∧
            lastNamed [mkRes "y" "S2" "20" "old", mkRes "z" "S3" "30" "pz"] name = some s ∧
            specCompare (some (.resource l)) (some (.resource s)) = false))) ∧
    (∀ name, SyncEvent.delete name ∈
        (mode2DataSyncer specCompare syncLegacy syncStorage "res" lockRuns id).trace ↔
      (name ∈ [mkRes "y" "S2" "20" "old", mkRes "z" "S3" "30" "pz"].map itemName ∧
        name ∉ [mkRes "x" "L1" "1" "px", mkRes "y" "L2" "2" "py"].map itemName)) ∧
    (mutatedNames
      (mode2DataSyncer specCompare syncLegacy syncStorage "res" lockRuns id).trace).Nodup :=
  ⟨by decide,
   syncer_mutations_exact specCompare syncLegacy syncStorage "res" lockRuns id
     [mkRes "x" "L1" "1" "px", mkRes "y" "L2" "2" "py"]
     [mkRes "y" "S2" "20" "old", mkRes "z" "S3" "30" "pz"]
     rfl rfl (by decide) rfl (by decide) (by decide) (fun m => List.Perm.refl m)⟩

/-- The upsert of `y` carries the Legacy payload with the UID and the
ResourceVersion of the Storage `y`; the upsert of `x` carries none. -/
theorem syncer_upsert_object_witness :
    SyncEvent.update "x" (mkObj "x" "" "" "px") true ∈
      (mode2DataSyncer specCompare syncLegacy syncStorage "res" lockRuns id).trace ∧
    ∃ legacyList storageList mL specL,
      getList syncLegacy = .ok legacyList ∧ getList syncStorage = .ok storageList ∧
      lastNamed (legacyList.filter (fun r => r.metadata.isSome)) "y" =
        some ⟨some mL, specL⟩ ∧
      mL.name = "y" ∧
      ((lastNamed (storageList.filter (fun r => r.metadata.isSome)) "y" = none ∧
          mkObj "y" "S2" "20" "py" = some (.resource
            ⟨some ⟨mL.name, "", "", mL.labels, mL.annotations⟩, specL⟩)) ∨
        ∃ mS specS,
          lastNamed (storageList.filter (fun r => r.metadata.isSome)) "y" =
            some ⟨some mS, specS⟩ ∧
          mkObj "y" "S2" "20" "py" = some (.resource
            ⟨some ⟨mL.name, mS.uid, mS.resourceVersion, mL.labels, mL.annotations⟩,
             specL⟩)) :=
  ⟨by decide,
   syncer_upsert_object specCompare syncLegacy syncStorage "res" lockRuns id
     (fun m => List.Perm.refl m) "y" (mkObj "y" "S2" "20" "py") true (by decide)⟩

/-! ## The data syncer: list failures -/

/-- C23: in a pass whose body the lock service runs, with no error of its own:
when listing Storage fails, or Storage lists under the limit and listing Legacy
fails, the pass makes no Storage.Update and no Storage.Delete and returns
`everythingSynced = false` with a nil error; the record-limit abort, in
contrast, returns its error. -/
theorem syncer_list_failure_not_surfaced (Compare : Option Object → Option Object → Bool)
    (legacy storage : Store) (resource : String) (serverLockService : ServerLockService)
    (order : ItemsByName → ItemsByName)
    (hrun : serverLockService.runsBody = true) (herr : serverLockService.err = none) :
    (∀ e, getList storage = .error e →
      (mode2DataSyncer Compare legacy storage resource serverLockService order).everythingSynced
        = false ∧
      (mode2DataSyncer Compare legacy storage resource serverLockService order).err = none ∧
      (mode2DataSyncer Compare legacy storage resource serverLockService order).trace =
        [SyncEvent.list .storage 1000]) ∧
    (∀ storageList e, getList storage = .ok storageList →
      storageList.length < maxRecordsSync → getList legacy = .error e →
      (mode2DataSyncer Compare legacy storage resource serverLockService order).everythingSynced
        = false ∧
      (mode2DataSyncer Compare legacy storage resource serverLockService order).err = none ∧
      (mode2DataSyncer Compare legacy storage resource serverLockService order).trace =
        [SyncEvent.list .storage 1000, SyncEvent.list .legacy 0]) ∧
    (∀ storageList, getList storage = .ok storageList →
      maxRecordsSync ≤ storageList.length →
      (mode2DataSyncer Compare legacy storage resource serverLockService order).err =
        some errSyncLimit) := by
  unfold mode2DataSyncer
  refine ⟨?_, ?_, ?_⟩
  · intro e hS
    simp [hrun, herr, hS, maxRecordsSync]
  · intro storageList e hS hlt hL
    have hng : ¬ 1000 ≤ storageList.length := Nat.not_le.mpr hlt
    simp [hrun, herr, hS, hL, hng, maxRecordsSync]
  · intro storageList hS hge
    have hge1 : 1000 ≤ storageList.length := hge
    simp [hrun, hS, hge1, maxRecordsSync]

/-- Storage fails to list: `(false, nil)` after the Storage list request alone.
Legacy fails to list: `(false, nil)` after the two list requests.  Storage
lists a thousand records: the record-limit error. -/
theorem syncer_list_failure_not_surfaced_witness :
    ((mode2DataSyncer specCompare syncLegacy syncStorageListFails "res" lockRuns
        id).everythingSynced = false ∧
      (mode2DataSyncer specCompare syncLegacy syncStorageListFails "res" lockRuns id).err
        = none ∧
      (mode2DataSyncer specCompare syncLegacy syncStorageListFails "res" lockRuns id).trace =
        [SyncEvent.list .storage 1000]) ∧
    ((mode2DataSyncer specCompare syncLegacyListFails syncStorage "res" lockRuns
        id).everythingSynced = false ∧
      (mode2DataSyncer specCompare syncLegacyListFails syncStorage "res" lockRuns id).err
        = none ∧
      (mode2DataSyncer specCompare syncLegacyListFails syncStorage "res" lockRuns id).trace =
        [SyncEvent.list .storage 1000, SyncEvent.list .legacy 0]) ∧
    (mode2DataSyncer specCompare syncLegacy syncStorageFull "res" lockRuns id).err =
      some errSyncLimit :=
  ⟨(syncer_list_failure_not_surfaced specCompare syncLegacy syncStorageListFails "res"
      lockRuns id rfl rfl).1 errDown rfl,
   (syncer_list_failure_not_surfaced specCompare syncLegacyListFails syncStorage "res"
      lockRuns id rfl rfl).2.1
      [mkRes "y" "S2" "20" "old", mkRes "z" "S3" "30" "pz"] errDown rfl (by decide) rfl,
   (syncer_list_failure_not_surfaced specCompare syncLegacy syncStorageFull "res"
      lockRuns id rfl rfl).2.2
      (List.replicate 1000 (mkRes "z" "S3" "30" "pz")) rfl
      (Nat.le_of_eq (List.length_replicate 1000 (mkRes "z" "S3" "30" "pz")).symm)⟩

/-! ## The data syncer: counters -/

/-- A turn of the loop over `itemsByName` adds to `syncSuccess` the mutations of
the turn that Storage answered with no error, and to `syncErr` those it
answered with an error. -/
theorem syncStep_counts (Compare : Option Object → Option Object → Bool) (storage : Store)
    (st : SyncState) (kv : String × syncItem) :
    (syncStep Compare storage st kv).syncSuccess =
      st.syncSuccess +
        (syncStep Compare storage ⟨0, 0, 0, []⟩ kv).trace.countP (mutationSucceeded storage) ∧
    (syncStep Compare storage st kv).syncErr =
      st.syncErr +
        (syncStep Compare storage ⟨0, 0, 0, []⟩ kv).trace.countP (mutationFailed storage) := by
  simp only [syncStep, syncUpsert, syncDelete]
  repeat' split
  all_goals simp_all [mutationSucceeded, mutationFailed]

/-- An object the accessor reads is a resource that carries that metadata. -/
theorem metaAccessor_ok (o : Option Object) (m : ObjectMeta) (h : MetaAccessor o = .ok m) :
    ∃ spec, o = some (.resource ⟨some m, spec⟩) := by
  rcases o with _ | ⟨⟨_ | m1, spec⟩⟩ | ⟨lm, items⟩
  · simp [MetaAccessor, Accessor] at h
  · simp [MetaAccessor, Accessor] at h
  · simp only [MetaAccessor, Accessor, Except.ok.injEq] at h
    exact ⟨spec, by rw [h]⟩
  · simp [MetaAccessor, Accessor] at h

/-- A turn of the loop over `itemsByName` for an item whose objects carry
metadata adds to `outOfSync` the number of mutations of the turn. -/
theorem syncStep_outOfSync (Compare : Option Object → Option Object → Bool) (storage : Store)
    (st : SyncState) (kv : String × syncItem)
    (hL : kv.2.objLegacy.isSome = true → ∃ m, MetaAccessor kv.2.objLegacy = .ok m)
    (hS : kv.2.objStorage.isSome = true → ∃ m, MetaAccessor kv.2.objStorage = .ok m) :
    (syncStep Compare storage st kv).outOfSync =
      st.outOfSync +
        (mutatedNames (syncStep Compare storage ⟨0, 0, 0, []⟩ kv).trace).length := by
  rcases kv with ⟨k, nm, sObj, lObj⟩
  cases lObj with
  | none =>
    cases sObj with
    | none => simp [syncStep, syncUpsert, syncDelete, mutatedNames]
    | some sO =>
      rw [syncStep_events_delete]
      simp only [syncStep, syncUpsert, syncDelete]
      repeat' split
      all_goals simp_all [mutatedNames]
  | some l =>
    obtain ⟨mL, hmL⟩ := hL rfl
    obtain ⟨specL, hl⟩ := metaAccessor_ok _ _ hmL
    cases Option.some.inj hl
    cases sObj with
    | none =>
      rw [syncStep_events_insert]
      simp only [syncStep, syncUpsert, syncDelete, MetaAccessor, Accessor, SetMeta]
      repeat' split
      all_goals simp_all [mutatedNames]
    | some sO =>
      obtain ⟨mS, hmS⟩ := hS rfl
      obtain ⟨specS, hs⟩ := metaAccessor_ok _ _ hmS
      cases Option.some.inj hs
      rw [syncStep_events_both]
      simp only [syncStep, syncUpsert, syncDelete, MetaAccessor, Accessor, SetMeta]
      repeat' split
      all_goals simp_all [mutatedNames]

/-- A turn of the loop over `itemsByName` adds one to `outOfSync` exactly when
the item is classified for upsert or for delete. -/
theorem syncStep_classified (Compare : Option Object → Option Object → Bool) (storage : Store)
    (st : SyncState) (kv : String × syncItem) :
    (syncStep Compare storage st kv).outOfSync =
      st.outOfSync +
        (if (kv.2.objLegacy.isSome &&
              ((kv.2.objStorage.isSome && !Compare kv.2.objLegacy kv.2.objStorage) ||
                kv.2.objStorage.isNone)) ||
            (kv.2.objLegacy.isNone && kv.2.objStorage.isSome) then 1 else 0) := by
  rcases kv with ⟨k, nm, sObj, lObj⟩
  cases lObj <;> cases sObj <;>
    simp only [syncStep, syncUpsert, syncDelete] <;>
    repeat' split
  all_goals simp_all

/-- Every mutation recorded in a trace either succeeded or failed. -/
theorem mutatedNames_length (storage : Store) (t : List SyncEvent) :
    (mutatedNames t).length =
      t.countP (mutationSucceeded storage) + t.countP (mutationFailed storage) := by
  induction t with
  | nil => rfl
  | cons ev rest ih =>
    have hcons : mutatedNames (ev :: rest) = mutatedNames [ev] ++ mutatedNames rest := by
      simp [mutatedNames, List.filterMap_cons]
      cases ev <;> simp
    rw [hcons, List.length_append, ih, List.countP_cons, List.countP_cons]
    cases ev with
    | update name objInfo f =>
      cases h : (storage.update name objInfo f).2.2 <;>
        simp [mutatedNames, mutationSucceeded, mutationFailed, h] <;> omega
    | delete name =>
      cases h : (storage.delete name).2.2 <;>
        simp [mutatedNames, mutationSucceeded, mutationFailed, h] <;> omega
    | list s limit => simp [mutatedNames, mutationSucceeded, mutationFailed]
    | recordDataSyncerOutcome mode resource synced =>
      simp [mutatedNames, mutationSucceeded, mutationFailed]
    | recordDataSyncerDuration isError mode resource =>
      simp [mutatedNames, mutationSucceeded, mutationFailed]

/-- The counters after the loop over a list of bindings whose objects carry
metadata: `syncSuccess` and `syncErr` grow by the mutations answered without
and with an error, `outOfSync` by the number of mutations and by the number of
items classified for upsert or delete. -/
theorem syncLoop_counts (Compare : Option Object → Option Object → Bool) (storage : Store) :
    ∀ (l : ItemsByName) (st : SyncState),
      (∀ kv ∈ l,
        (kv.2.objLegacy.isSome = true → ∃ m, MetaAccessor kv.2.objLegacy = .ok m) ∧
        (kv.2.objStorage.isSome = true → ∃ m, MetaAccessor kv.2.objStorage = .ok m)) →
      (l.foldl (syncStep Compare storage) st).syncSuccess =
        st.syncSuccess +
          (l.flatMap (fun kv => (syncStep Compare storage ⟨0, 0, 0, []⟩ kv).trace)).countP
            (mutationSucceeded storage) ∧
      (l.foldl (syncStep Compare storage) st).syncErr =
        st.syncErr +
          (l.flatMap (fun kv => (syncStep Compare storage ⟨0, 0, 0, []⟩ kv).trace)).countP
            (mutationFailed storage) ∧
      (l.foldl (syncStep Compare storage) st).outOfSync =
        st.outOfSync +
          (mutatedNames
            (l.flatMap (fun kv => (syncStep Compare storage ⟨0, 0, 0, []⟩ kv).trace))).length ∧
      (l.foldl (syncStep Compare storage) st).outOfSync =
        st.outOfSync +
          l.countP (fun kv =>
            (kv.2.objLegacy.isSome &&
              ((kv.2.objStorage.isSome && !Compare kv.2.objLegacy kv.2.objStorage) ||
                kv.2.objStorage.isNone)) ||
            (kv.2.objLegacy.isNone && kv.2.objStorage.isSome)) := by
  intro l
  induction l with
  | nil => intro st _; simp [mutatedNames]
  | cons kv rest ih =>
    intro st hwf
    have hkv := hwf kv (List.mem_cons_self kv rest)
    have hrest := ih (syncStep Compare storage st kv)
      (fun x hx => hwf x (List.mem_cons_of_mem kv hx))
    have hc := syncStep_counts Compare storage st kv
    have ho := syncStep_outOfSync Compare storage st kv hkv.1 hkv.2
    have hcl := syncStep_classified Compare storage st kv
    have hmut : mutatedNames ((kv :: rest).flatMap
        (fun kv => (syncStep Compare storage ⟨0, 0, 0, []⟩ kv).trace)) =
        mutatedNames (syncStep Compare storage ⟨0, 0, 0, []⟩ kv).trace ++
        mutatedNames (rest.flatMap
          (fun kv => (syncStep Compare storage ⟨0, 0, 0, []⟩ kv).trace)) := by
      simp [mutatedNames, List.filterMap_append]
    rw [List.foldl_cons, hmut, List.flatMap_cons, List.countP_append, List.countP_append,
      List.length_append, List.countP_cons]
    refine ⟨?_, ?_, ?_, ?_⟩
    · rw [hrest.1, hc.1, Nat.add_assoc]
    · rw [hrest.2.1, hc.2, Nat.add_assoc]
    · rw [hrest.2.2.1, ho, Nat.add_assoc]
    · rw [hrest.2.2.2, hcl]
      omega

/-- Every object bound in `itemsByName` carries metadata, whatever the lists. -/
theorem itemsByName_wf (order : ItemsByName → ItemsByName)
    (hperm : ∀ m, (order m).Perm m) (legacyList storageList : Items) :
    ∀ kv ∈ order (storageList.foldl addStorage (legacyList.foldl addLegacy [])),
      (kv.2.objLegacy.isSome = true → ∃ m, MetaAccessor kv.2.objLegacy = .ok m) ∧
      (kv.2.objStorage.isSome = true → ∃ m, MetaAccessor kv.2.objStorage = .ok m) := by
  rintro ⟨k, item⟩ hmem
  rcases (itemsByName_mem order hperm legacyList storageList k item).mp hmem with
    ⟨mL, specL, _, _, rfl⟩ | ⟨mL, specL, mS, specS, _, _, rfl⟩ | ⟨mS, specS, _, _, rfl⟩
  · exact ⟨fun _ => ⟨mL, rfl⟩, fun h => by simp at h⟩
  · exact ⟨fun _ => ⟨mL, rfl⟩, fun _ => ⟨mS, rfl⟩⟩
  · exact ⟨fun h => by simp at h, fun _ => ⟨mS, rfl⟩⟩

/-- The counters of a pass that obtains both lists, read off its trace. -/
theorem syncer_counts (Compare : Option Object → Option Object → Bool)
    (legacy storage : Store) (resource : String) (serverLockService : ServerLockService)
    (order : ItemsByName → ItemsByName) (legacyList storageList : Items)
    (hrun : serverLockService.runsBody = true) (hS : getList storage = .ok storageList)
    (hlt : storageList.length < maxRecordsSync) (hL : getList legacy = .ok legacyList)
    (hperm : ∀ m, (order m).Perm m) :
    (mode2DataSyncer Compare legacy storage resource serverLockService order).everythingSynced =
      ((mode2DataSyncer Compare legacy storage resource serverLockService order).outOfSync ==
        (mode2DataSyncer Compare legacy storage resource serverLockService order).syncSuccess) ∧
    (mode2DataSyncer Compare legacy storage resource serverLockService order).syncSuccess =
      (mode2DataSyncer Compare legacy storage resource serverLockService order).trace.countP
        (mutationSucceeded storage) ∧
    (mode2DataSyncer Compare legacy storage resource serverLockService order).syncErr =
      (mode2DataSyncer Compare legacy storage resource serverLockService order).trace.countP
        (mutationFailed storage) ∧
    (mode2DataSyncer Compare legacy storage resource serverLockService order).outOfSync =
      (mutatedNames
        (mode2DataSyncer Compare legacy storage resource serverLockService order).trace).length ∧
    (mode2DataSyncer Compare legacy storage resource serverLockService order).outOfSync =
      (order (storageList.foldl addStorage (legacyList.foldl addLegacy []))).countP (fun kv =>
        (kv.2.objLegacy.isSome &&
          ((kv.2.objStorage.isSome && !Compare kv.2.objLegacy kv.2.objStorage) ||
            kv.2.objStorage.isNone)) ||
        (kv.2.objLegacy.isNone && kv.2.objStorage.isSome)) := by
  have hng : ¬ 1000 ≤ storageList.length := Nat.not_le.mpr hlt
  have hloop := syncLoop_counts Compare storage
    (order (storageList.foldl addStorage (legacyList.foldl addLegacy [])))
    ⟨0, 0, 0, [SyncEvent.list .storage 1000, SyncEvent.list .legacy 0]⟩
    (itemsByName_wf order hperm legacyList storageList)
  have htrace := syncer_trace Compare legacy storage resource serverLockService order
    legacyList storageList hrun hS hlt hL
  have hsplit : ∀ (a b c : List SyncEvent),
      mutatedNames (a ++ b ++ c) = mutatedNames a ++ mutatedNames b ++ mutatedNames c := by
    intro a b c
    simp [mutatedNames, List.filterMap_append]
  rw [htrace, hsplit]
  unfold mode2DataSyncer
  simp only [hrun, hS, hL, ge_iff_le, maxRecordsSync, hng, Bool.not_true, Bool.false_eq_true,
    if_false, List.countP_append, List.length_append, List.cons_append, List.nil_append]
  refine ⟨trivial, ?_, ?_, ?_, ?_⟩
  · rw [hloop.1]
    simp [mutationSucceeded]
  · rw [hloop.2.1]
    simp [mutationFailed]
  · rw [hloop.2.2.1]
    simp [mutatedNames]
  · rw [hloop.2.2.2]
    simp

/-- C21: in a sync pass whose body runs to completion (both lists obtained, the
Storage list under the limit), whatever the order in which the map is ranged
over: the returned `everythingSynced` is `outOfSync == syncSuccess`;
`outOfSync` is the number of items classified for upsert or delete, which is
the number of Storage mutations of the pass; `syncSuccess` is the number of
those mutations Storage answered with no error and `syncErr` the number it
answered with an error; so `everythingSynced` is true when every mutation
succeeds and false as soon as one fails. -/
theorem syncer_everythingSynced (Compare : Option Object → Option Object → Bool)
    (legacy storage : Store) (resource : String) (serverLockService : ServerLockService)
    (order : ItemsByName → ItemsByName) (legacyList storageList : Items)
    (hrun : serverLockService.runsBody = true) (hS : getList storage = .ok storageList)
    (hlt : storageList.length < maxRecordsSync) (hL : getList legacy = .ok legacyList)
    (hperm : ∀ m, (order m).Perm m) :
    (mode2DataSyncer Compare legacy storage resource serverLockService order).everythingSynced =
      ((mode2DataSyncer Compare legacy storage resource serverLockService order).outOfSync ==
        (mode2DataSyncer Compare legacy storage resource serverLockService order).syncSuccess) ∧
    (mode2DataSyncer Compare legacy storage resource serverLockService order).outOfSync =
      (order (storageList.foldl addStorage (legacyList.foldl addLegacy []))).countP (fun kv =>
        (kv.2.objLegacy.isSome &&
          ((kv.2.objStorage.isSome && !Compare kv.2.objLegacy kv.2.objStorage) ||
            kv.2.objStorage.isNone)) ||
        (kv.2.objLegacy.isNone && kv.2.objStorage.isSome)) ∧
    (mode2DataSyncer Compare legacy storage resource serverLockService order).outOfSync =
      (mutatedNames
        (mode2DataSyncer Compare legacy storage resource serverLockService order).trace).length ∧
    (mode2DataSyncer Compare legacy storage resource serverLockService order).syncSuccess =
      (mode2DataSyncer Compare legacy storage resource serverLockService order).trace.countP
        (mutationSucceeded storage) ∧
    (mode2DataSyncer Compare legacy storage resource serverLockService order).syncErr =
      (mode2DataSyncer Compare legacy storage resource serverLockService order).trace.countP
        (mutationFailed storage) ∧
    ((∀ ev ∈ (mode2DataSyncer Compare legacy storage resource serverLockService order).trace,
        mutationFailed storage ev = false) →
      (mode2DataSyncer Compare legacy storage resource serverLockService order).everythingSynced
        = true) ∧
    ((∃ ev ∈ (mode2DataSyncer Compare legacy storage resource serverLockService order).trace,
        mutationFailed storage ev = true) →
      (mode2DataSyncer Compare legacy storage resource serverLockService order).everythingSynced
        = false) := by
  obtain ⟨hA, hsucc, herr, hout, hcl⟩ := syncer_counts Compare legacy storage resource
    serverLockService order legacyList storageList hrun hS hlt hL hperm
  have hsum := mutatedNames_length storage
    (mode2DataSyncer Compare legacy storage resource serverLockService order).trace
  refine ⟨hA, hcl, hout, hsucc, herr, ?_, ?_⟩
  · intro hall
    have hzero : (mode2DataSyncer Compare legacy storage resource serverLockService
        order).trace.countP (mutationFailed storage) = 0 := by
      rw [List.countP_eq_zero]
      intro ev hev
      simp [hall ev hev]
    rw [hA, beq_iff_eq, hout, hsum, hsucc, hzero, Nat.add_zero]
  · rintro ⟨ev, hev, hfail⟩
    have hpos : 0 < (mode2DataSyncer Compare legacy storage resource serverLockService
        order).trace.countP (mutationFailed storage) :=
      List.countP_pos_iff.mpr ⟨ev, hev, hfail⟩
    rw [hA]
    apply beq_false_of_ne
    rw [hout, hsum, hsucc]
    omega

/-- Legacy lists `x`, `y`, Storage lists another `y` and `z`, and Storage
accepts every mutation: `outOfSync = 3`, `syncSuccess = 3`,
`everythingSynced = true`. -/
theorem syncer_everythingSynced_witness :
    (mode2DataSyncer specCompare syncLegacy syncStorage "res" lockRuns id).outOfSync = 3 ∧
    (mode2DataSyncer specCompare syncLegacy syncStorage "res" lockRuns id).syncSuccess = 3 ∧
    (mode2DataSyncer specCompare syncLegacy syncStorage "res" lockRuns id).syncErr = 0 ∧
    (∀ ev ∈ (mode2DataSyncer specCompare syncLegacy syncStorage "res" lockRuns id).trace,
      mutationFailed syncStorage ev = false) ∧
    (mode2DataSyncer specCompare syncLegacy syncStorage "res" lockRuns id).everythingSynced
      = true :=
  ⟨by decide, by decide, by decide, by decide,
   (syncer_everythingSynced specCompare syncLegacy syncStorage "res" lockRuns id
      [mkRes "x" "L1" "1" "px", mkRes "y" "L2" "2" "py"]
      [mkRes "y" "S2" "20" "old", mkRes "z" "S3" "30" "pz"]
      rfl rfl (by decide) rfl (fun m => List.Perm.refl m)).2.2.2.2.2.1 (by decide)⟩

/-! ## The data syncer: a second pass -/

/-- A name is among the mutated names of a trace exactly when the trace holds an
update or a delete of that name. -/
theorem mem_mutatedNames (t : List SyncEvent) (n : String) :
    n ∈ mutatedNames t ↔
      (∃ objInfo f, SyncEvent.update n objInfo f ∈ t) ∨ SyncEvent.delete n ∈ t := by
  unfold mutatedNames
  rw [List.mem_filterMap]
  constructor
  · rintro ⟨ev, hev, hname⟩
    cases ev with
    | update name objInfo f =>
      simp only [Option.some.injEq] at hname
      subst hname
      exact Or.inl ⟨objInfo, f, hev⟩
    | delete name =>
      simp only [Option.some.injEq] at hname
      subst hname
      exact Or.inr hev
    | list s limit => simp at hname
    | recordDataSyncerOutcome mode resource synced => simp at hname
    | recordDataSyncerDuration isError mode resource => simp at hname
  · rintro (⟨objInfo, f, h⟩ | h)
    · exact ⟨_, h, rfl⟩
    · exact ⟨_, h, rfl⟩

/-- A pass either runs its body to completion, or it classifies nothing and
mutates nothing. -/
theorem syncer_complete_or_idle (Compare : Option Object → Option Object → Bool)
    (legacy storage : Store) (resource : String) (serverLockService : ServerLockService)
    (order : ItemsByName → ItemsByName) :
    (serverLockService.runsBody = true ∧
      ∃ legacyList storageList, getList storage = .ok storageList ∧
        storageList.length < maxRecordsSync ∧ getList legacy = .ok legacyList) ∨
    ((mode2DataSyncer Compare legacy storage resource serverLockService order).outOfSync = 0 ∧
      (mode2DataSyncer Compare legacy storage resource serverLockService order).everythingSynced
        = false ∧
      mutatedNames
        (mode2DataSyncer Compare legacy storage resource serverLockService order).trace = []) := by
  unfold mode2DataSyncer
  cases hrun : serverLockService.runsBody with
  | false => right; simp [mutatedNames]
  | true =>
    cases hS : getList storage with
    | error e => right; simp [mutatedNames]
    | ok storageList =>
      by_cases hge : 1000 ≤ storageList.length
      · right
        simp [hge, maxRecordsSync, mutatedNames]
      · cases hL : getList legacy with
        | error e => right; simp [hge, maxRecordsSync, mutatedNames]
        | ok legacyList =>
          exact Or.inl ⟨rfl, legacyList, storageList, rfl, Nat.not_le.mp hge, rfl⟩

/-- A pass that runs to completion and sees no mutation fail reports
`everythingSynced = true`. -/
theorem syncer_synced_of_no_failure (Compare : Option Object → Option Object → Bool)
    (legacy storage : Store) (resource : String) (serverLockService : ServerLockService)
    (order : ItemsByName → ItemsByName) (legacyList storageList : Items)
    (hrun : serverLockService.runsBody = true) (hS : getList storage = .ok storageList)
    (hlt : storageList.length < maxRecordsSync) (hL : getList legacy = .ok legacyList)
    (hperm : ∀ m, (order m).Perm m)
    (hall : ∀ ev ∈ (mode2DataSyncer Compare legacy storage resource serverLockService
      order).trace, mutationFailed storage ev = false) :
    (mode2DataSyncer Compare legacy storage resource serverLockService order).everythingSynced
      = true ∧
    (mode2DataSyncer Compare legacy storage resource serverLockService order).syncErr = 0 := by
  obtain ⟨hA, hsucc, herr, hout, _⟩ := syncer_counts Compare legacy storage resource
    serverLockService order legacyList storageList hrun hS hlt hL hperm
  have hsum := mutatedNames_length storage
    (mode2DataSyncer Compare legacy storage resource serverLockService order).trace
  have hzero : (mode2DataSyncer Compare legacy storage resource serverLockService
      order).trace.countP (mutationFailed storage) = 0 := by
    rw [List.countP_eq_zero]
    intro ev hev
    simp [hall ev hev]
  constructor
  · rw [hA, beq_iff_eq, hout, hsum, hsucc, hzero, Nat.add_zero]
  · rw [herr, hzero]

/-- A pass that runs to completion over lists where Storage holds, under every
name Legacy holds, an object the Comparator finds equal to the Legacy one, and
holds no other name, classifies nothing and mutates nothing. -/
theorem syncer_idle_of_mirror (Compare : Option Object → Option Object → Bool)
    (legacy storage : Store) (resource : String) (serverLockService : ServerLockService)
    (order : ItemsByName → ItemsByName) (legacyList storageList : Items)
    (hrun : serverLockService.runsBody = true) (hS : getList storage = .ok storageList)
    (hlt : storageList.length < maxRecordsSync) (hL : getList legacy = .ok legacyList)
    (hperm : ∀ m, (order m).Perm m)
    (hmirror : ∀ n,
      (lastNamed (legacyList.filter (fun r => r.metadata.isSome)) n = none ∧
        lastNamed (storageList.filter (fun r => r.metadata.isSome)) n = none) ∨
      ∃ l s, lastNamed (legacyList.filter (fun r => r.metadata.isSome)) n = some l ∧
        lastNamed (storageList.filter (fun r => r.metadata.isSome)) n = some s ∧
        Compare (some (.resource l)) (some (.resource s)) = true) :
    mutatedNames
        (mode2DataSyncer Compare legacy storage resource serverLockService order).trace = [] ∧
    (mode2DataSyncer Compare legacy storage resource serverLockService order).outOfSync = 0 ∧
    (mode2DataSyncer Compare legacy storage resource serverLockService order).everythingSynced
      = true := by
  have hnil : mutatedNames
      (mode2DataSyncer Compare legacy storage resource serverLockService order).trace = [] := by
    rw [List.eq_nil_iff_forall_not_mem]
    intro n hn
    rw [mem_mutatedNames] at hn
    rcases hn with ⟨objInfo, f, h⟩ | h
    · obtain ⟨mL, specL, hLn, _, hcase⟩ :=
        (syncer_update_mem Compare legacy storage resource serverLockService order legacyList
          storageList hrun hS hlt hL hperm n objInfo f).mp h
      rcases hmirror n with ⟨h1, _⟩ | ⟨l, s, h1, h2, h3⟩
      · rw [h1] at hLn
        cases hLn
      · rw [h1] at hLn
        cases hLn
        rcases hcase with ⟨hnone, _⟩ | ⟨mS, specS, hSn, hcmp, _⟩
        · rw [h2] at hnone
          cases hnone
        · rw [h2] at hSn
          cases hSn
          rw [h3] at hcmp
          cases hcmp
    · obtain ⟨hLn, hSs⟩ :=
        (syncer_delete_mem Compare legacy storage resource serverLockService order legacyList
          storageList hrun hS hlt hL hperm n).mp h
      rcases hmirror n with ⟨_, h2⟩ | ⟨l, s, h1, _, _⟩
      · rw [h2] at hSs
        cases hSs
      · rw [h1] at hLn
        cases hLn
  obtain ⟨hA, hsucc, _, hout, _⟩ := syncer_counts Compare legacy storage resource
    serverLockService order legacyList storageList hrun hS hlt hL hperm
  have hsum := mutatedNames_length storage
    (mode2DataSyncer Compare legacy storage resource serverLockService order).trace
  rw [hnil, List.length_nil] at hsum
  rw [hnil, List.length_nil] at hout
  refine ⟨hnil, hout, ?_⟩
  rw [hA, beq_iff_eq, hout, hsucc]
  omega

/-- After a pass that runs to completion, a Storage list that holds an object
the Comparator finds equal to the Legacy one under every upserted name, holds
no deleted name, and holds what it held under every other name, mirrors the
Legacy list. -/
theorem storage_mirrors_after_pass (Compare : Option Object → Option Object → Bool)
    (legacy storage : Store) (resource : String) (serverLockService : ServerLockService)
    (order : ItemsByName → ItemsByName) (legacyList storageList storageList2 : Items)
    (hrun : serverLockService.runsBody = true) (hS : getList storage = .ok storageList)
    (hlt : storageList.length < maxRecordsSync) (hL : getList legacy = .ok legacyList)
    (hperm : ∀ m, (order m).Perm m)
    (hup : ∀ n objInfo f, SyncEvent.update n objInfo f ∈
        (mode2DataSyncer Compare legacy storage resource serverLockService order).trace →
      ∃ l s, lastNamed (legacyList.filter (fun r => r.metadata.isSome)) n = some l ∧
        lastNamed (storageList2.filter (fun r => r.metadata.isSome)) n = some s ∧
        Compare (some (.resource l)) (some (.resource s)) = true)
    (hdel : ∀ n, SyncEvent.delete n ∈
        (mode2DataSyncer Compare legacy storage resource serverLockService order).trace →
      lastNamed (storageList2.filter (fun r => r.metadata.isSome)) n = none)
    (hsame : ∀ n, n ∉ mutatedNames
        (mode2DataSyncer Compare legacy storage resource serverLockService order).trace →
      lastNamed (storageList2.filter (fun r => r.metadata.isSome)) n =
        lastNamed (storageList.filter (fun r => r.metadata.isSome)) n) :
    ∀ n,
      (lastNamed (legacyList.filter (fun r => r.metadata.isSome)) n = none ∧
        lastNamed (storageList2.filter (fun r => r.metadata.isSome)) n = none) ∨
      ∃ l s, lastNamed (legacyList.filter (fun r => r.metadata.isSome)) n = some l ∧
        lastNamed (storageList2.filter (fun r => r.metadata.isSome)) n = some s ∧
        Compare (some (.resource l)) (some (.resource s)) = true := by
  intro n
  by_cases hm : n ∈ mutatedNames
      (mode2DataSyncer Compare legacy storage resource serverLockService order).trace
  · rcases (mem_mutatedNames _ n).mp hm with ⟨objInfo, f, h⟩ | h
    · exact Or.inr (hup n objInfo f h)
    · exact Or.inl ⟨((syncer_delete_mem Compare legacy storage resource serverLockService order
        legacyList storageList hrun hS hlt hL hperm n).mp h).1, hdel n h⟩
  · have hs := hsame n hm
    cases hLn : lastNamed (legacyList.filter (fun r => r.metadata.isSome)) n with
    | none =>
      left
      refine ⟨rfl, ?_⟩
      rw [hs]
      cases hSn : lastNamed (storageList.filter (fun r => r.metadata.isSome)) n with
      | none => rfl
      | some s =>
        exfalso
        apply hm
        rw [mem_mutatedNames]
        right
        exact (syncer_delete_mem Compare legacy storage resource serverLockService order
          legacyList storageList hrun hS hlt hL hperm n).mpr ⟨hLn, by rw [hSn]; rfl⟩
    | some l =>
      obtain ⟨mL, specL, rfl, _, _⟩ := lastNamed_filter_meta legacyList n l hLn
      cases hSn : lastNamed (storageList.filter (fun r => r.metadata.isSome)) n with
      | none =>
        exfalso
        apply hm
        rw [mem_mutatedNames]
        left
        exact ⟨_, true, (syncer_update_mem Compare legacy storage resource serverLockService
          order legacyList storageList hrun hS hlt hL hperm n _ true).mpr
          ⟨mL, specL, hLn, rfl, Or.inl ⟨hSn, rfl⟩⟩⟩
      | some s =>
        obtain ⟨mS, specS, rfl, _, _⟩ := lastNamed_filter_meta storageList n s hSn
        cases hc : Compare (some (.resource ⟨some mL, specL⟩))
            (some (.resource ⟨some mS, specS⟩)) with
        | false =>
          exfalso
          apply hm
          rw [mem_mutatedNames]
          left
          exact ⟨_, true, (syncer_update_mem Compare legacy storage resource serverLockService
            order legacyList storageList hrun hS hlt hL hperm n _ true).mpr
            ⟨mL, specL, hLn, rfl, Or.inr ⟨mS, specS, hSn, hc, rfl⟩⟩⟩
        | true =>
          right
          exact ⟨_, _, rfl, by rw [hs, hSn], hc⟩

/-- C22 (amended): two consecutive passes of the syncer over the same Legacy
list, whatever the orders in which the map is ranged over.  The first pass runs
to completion; Storage then lists, under every name the first pass upserted, an
object the Comparator finds equal to the Legacy one, lists no name the first
pass deleted, and lists what it listed before under every other name (no
intervening writes).  Then the second pass classifies nothing
(`outOfSync = 0`) and invokes no `Storage.Update` and no `Storage.Delete`; it
reports `everythingSynced = true` exactly when its lock runs the body and
Storage lists fewer than `maxRecordsSync` records, and `false` otherwise. -/
theorem syncer_second_pass_idle (Compare : Option Object → Option Object → Bool)
    (legacy storage1 storage2 : Store) (resource : String)
    (lock1 lock2 : ServerLockService) (order1 order2 : ItemsByName → ItemsByName)
    (legacyList storageList1 storageList2 : Items)
    (hperm1 : ∀ m, (order1 m).Perm m) (hperm2 : ∀ m, (order2 m).Perm m)
    (hrun1 : lock1.runsBody = true) (hS1 : getList storage1 = .ok storageList1)
    (hlt1 : storageList1.length < maxRecordsSync) (hL : getList legacy = .ok legacyList)
    (hS2 : getList storage2 = .ok storageList2)
    (hup : ∀ n objInfo f, SyncEvent.update n objInfo f ∈
        (mode2DataSyncer Compare legacy storage1 resource lock1 order1).trace →
      ∃ l s, lastNamed (legacyList.filter (fun r => r.metadata.isSome)) n = some l ∧
        lastNamed (storageList2.filter (fun r => r.metadata.isSome)) n = some s ∧
        Compare (some (.resource l)) (some (.resource s)) = true)
    (hdel : ∀ n, SyncEvent.delete n ∈
        (mode2DataSyncer Compare legacy storage1 resource lock1 order1).trace →
      lastNamed (storageList2.filter (fun r => r.metadata.isSome)) n = none)
    (hsame : ∀ n, n ∉ mutatedNames
        (mode2DataSyncer Compare legacy storage1 resource lock1 order1).trace →
      lastNamed (storageList2.filter (fun r => r.metadata.isSome)) n =
        lastNamed (storageList1.filter (fun r => r.metadata.isSome)) n) :
    (mode2DataSyncer Compare legacy storage2 resource lock2 order2).outOfSync = 0 ∧
    (∀ n objInfo f, SyncEvent.update n objInfo f ∉
      (mode2DataSyncer Compare legacy storage2 resource lock2 order2).trace) ∧
    (∀ n, SyncEvent.delete n ∉
      (mode2DataSyncer Compare legacy storage2 resource lock2 order2).trace) ∧
    (mode2DataSyncer Compare legacy storage2 resource lock2 order2).everythingSynced =
      (lock2.runsBody && decide (storageList2.length < maxRecordsSync)) := by
  have hmirror := storage_mirrors_after_pass Compare legacy storage1 resource lock1 order1
    legacyList storageList1 storageList2 hrun1 hS1 hlt1 hL hperm1 hup hdel hsame
  have hidle : mutatedNames
        (mode2DataSyncer Compare legacy storage2 resource lock2 order2).trace = [] ∧
      (mode2DataSyncer Compare legacy storage2 resource lock2 order2).outOfSync = 0 ∧
      (mode2DataSyncer Compare legacy storage2 resource lock2 order2).everythingSynced =
        (lock2.runsBody && decide (storageList2.length < maxRecordsSync)) := by
    cases hrun2 : lock2.runsBody with
    | false =>
      unfold mode2DataSyncer
      simp [hrun2, mutatedNames]
    | true =>
      by_cases hlt2 : storageList2.length < maxRecordsSync
      · obtain ⟨h1, h2, h3⟩ := syncer_idle_of_mirror Compare legacy storage2 resource lock2
          order2 legacyList storageList2 hrun2 hS2 hlt2 hL hperm2 hmirror
        refine ⟨h1, h2, ?_⟩
        rw [h3]
        simp [hlt2]
      · have hge : 1000 ≤ storageList2.length := by
          unfold maxRecordsSync at hlt2
          omega
        have hnlt : ¬ storageList2.length < 1000 := by omega
        unfold mode2DataSyncer
        simp [hrun2, hS2, hge, hnlt, maxRecordsSync, mutatedNames]
  obtain ⟨hnil, hout, hsynced⟩ := hidle
  refine ⟨hout, ?_, ?_, hsynced⟩
  · intro n objInfo f h
    have hmem : n ∈ mutatedNames
        (mode2DataSyncer Compare legacy storage2 resource lock2 order2).trace :=
      (mem_mutatedNames _ n).mpr (Or.inl ⟨objInfo, f, h⟩)
    rw [hnil] at hmem
    cases hmem
  · intro n h
    have hmem : n ∈ mutatedNames
        (mode2DataSyncer Compare legacy storage2 resource lock2 order2).trace :=
      (mem_mutatedNames _ n).mpr (Or.inr h)
    rw [hnil] at hmem
    cases hmem

/-- Legacy lists `x`, `y`, `w`; Storage lists another `y`, a `z` and an equal
`w`.  The first pass deletes `z` and upserts `y` and `x`; Storage then lists
`y`, `w`, `x`, equal to the Legacy objects up to UID and resource version; the
second pass classifies nothing, mutates nothing and reports
`everythingSynced = true`. -/
theorem syncer_second_pass_idle_witness :
    mutatedNames
      (mode2DataSyncer specCompare syncLegacyW syncStorageW "res" lockRuns id).trace =
      ["z", "y", "x"] ∧
    (mode2DataSyncer specCompare syncLegacyW syncStorageW "res" lockRuns id).everythingSynced
      = true ∧
    (mode2DataSyncer specCompare syncLegacyW syncStorageWAfter "res" lockRuns id).outOfSync = 0 ∧
    (∀ n objInfo f, SyncEvent.update n objInfo f ∉
      (mode2DataSyncer specCompare syncLegacyW syncStorageWAfter "res" lockRuns id).trace) ∧
    (∀ n, SyncEvent.delete n ∉
      (mode2DataSyncer specCompare syncLegacyW syncStorageWAfter "res" lockRuns id).trace) ∧
    (mode2DataSyncer specCompare syncLegacyW syncStorageWAfter "res" lockRuns
      id).everythingSynced = true :=
  ⟨by decide, by decide,
   syncer_second_pass_idle specCompare syncLegacyW syncStorageW syncStorageWAfter "res"
     lockRuns lockRuns id id
     [mkRes "x" "L1" "1" "px", mkRes "y" "L2" "2" "py", mkRes "w" "L4" "4" "pw"]
     [mkRes "y" "S2" "20" "old", mkRes "z" "S3" "30" "pz", mkRes "w" "S4" "40" "pw"]
     [mkRes "y" "S2" "41" "py", mkRes "w" "S4" "40" "pw", mkRes "x" "S9" "43" "px"]
     (fun m => List.Perm.refl m) (fun m => List.Perm.refl m) rfl rfl (by decide) rfl rfl
     (by
       intro n objInfo f h
       have h1 : SyncEvent.update n objInfo f ∈
           [SyncEvent.list .storage 1000, SyncEvent.list .legacy 0, SyncEvent.delete "z",
            SyncEvent.update "y" (mkObj "y" "S2" "20" "py") true,
            SyncEvent.update "x" (mkObj "x" "" "" "px") true,
            SyncEvent.recordDataSyncerOutcome "2" "res" true,
            SyncEvent.recordDataSyncerDuration false "2" "res"] := h
       simp only [List.mem_cons, List.mem_singleton, reduceCtorEq, false_or, or_false,
         SyncEvent.update.injEq, List.not_mem_nil] at h1
       rcases h1 with ⟨rfl, _, _⟩ | ⟨rfl, _, _⟩
       · exact ⟨mkRes "y" "L2" "2" "py", mkRes "y" "S2" "41" "py", by decide, by decide,
           by decide⟩
       · exact ⟨mkRes "x" "L1" "1" "px", mkRes "x" "S9" "43" "px", by decide, by decide,
           by decide⟩)
     (by
       intro n h
       have h1 : SyncEvent.delete n ∈
           [SyncEvent.list .storage 1000, SyncEvent.list .legacy 0, SyncEvent.delete "z",
            SyncEvent.update "y" (mkObj "y" "S2" "20" "py") true,
            SyncEvent.update "x" (mkObj "x" "" "" "px") true,
            SyncEvent.recordDataSyncerOutcome "2" "res" true,
            SyncEvent.recordDataSyncerDuration false "2" "res"] := h
       simp only [List.mem_cons, List.mem_singleton, reduceCtorEq, false_or, or_false,
         SyncEvent.delete.injEq, List.not_mem_nil] at h1
       subst h1
       decide)
     (by
       intro n hn
       have h1 : n ∉ ["z", "y", "x"] := hn
       simp only [List.mem_cons, List.mem_singleton, List.not_mem_nil, or_false,
         not_or] at h1
       obtain ⟨hz, hy, hx⟩ := h1
       by_cases hw : n = "w"
       · subst hw
         decide
       · rw [(lastNamed_eq_none_iff _ n).mpr (by
               simp [List.filter, mkRes, itemName, getName, Accessor, hz, hy, hx, hw]),
             (lastNamed_eq_none_iff _ n).mpr (by
               simp [List.filter, mkRes, itemName, getName, Accessor, hz, hy, hx, hw])])⟩

/-- Listing every object as Storage holds it changes neither which names are
held nor which object is the last under a name. -/
theorem lastNamed_map_storedAs (l : Items) (n : String) :
    lastNamed ((l.map storedAs).filter (fun r => r.metadata.isSome)) n =
      (lastNamed (l.filter (fun r => r.metadata.isSome)) n).map storedAs := by
  have h1 : ((fun r : Resource => r.metadata.isSome) ∘ storedAs) =
      (fun r : Resource => r.metadata.isSome) := by
    funext r
    rcases r with ⟨_ | m, s⟩ <;> rfl
  have h2 : ((fun r : Resource => itemName r == n) ∘ storedAs) =
      (fun r : Resource => itemName r == n) := by
    funext r
    rcases r with ⟨_ | m, s⟩ <;> rfl
  unfold lastNamed
  rw [List.filter_map, h1, ← List.map_reverse, List.find?_map, h2]

/-- The Comparator of the spec finds an object equal to the one Storage lists
for it. -/
theorem specCompare_storedAs (r : Resource) :
    specCompare (some (.resource r)) (some (.resource (storedAs r))) = true := by
  rcases r with ⟨_ | m, s⟩ <;> simp [specCompare, storedAs]

/-- C22, counterexample: Legacy lists a thousand objects and Storage none.  The
first pass runs to completion and every mutation it makes succeeds
(`everythingSynced = true`, no error, `syncErr = 0`); it makes no delete.
Storage then lists, under every upserted name, the Legacy object under a UID
and a resource version of its own, which the Comparator finds equal, and lists
nothing under any other name, as before.  The second pass finds a thousand
records in Storage and aborts at the record limit: it classifies nothing and
mutates nothing, but reports `everythingSynced = false` with the limit
error. -/
theorem syncer_second_pass_aborts_at_limit :
    (mode2DataSyncer specCompare syncLegacyBig syncStorageEmpty "res" lockRuns
      id).everythingSynced = true ∧
    (mode2DataSyncer specCompare syncLegacyBig syncStorageEmpty "res" lockRuns id).err = none ∧
    (mode2DataSyncer specCompare syncLegacyBig syncStorageEmpty "res" lockRuns id).syncErr = 0 ∧
    getList syncLegacyBig = .ok bigLegacyItems ∧
    getList syncStorageEmpty = .ok [] ∧
    getList syncStorageBigAfter = .ok (bigLegacyItems.map storedAs) ∧
    (bigLegacyItems.map storedAs).length = 1000 ∧
    (∀ n objInfo f, SyncEvent.update n objInfo f ∈
        (mode2DataSyncer specCompare syncLegacyBig syncStorageEmpty "res" lockRuns id).trace →
      ∃ l s, lastNamed (bigLegacyItems.filter (fun r => r.metadata.isSome)) n = some l ∧
        lastNamed ((bigLegacyItems.map storedAs).filter (fun r => r.metadata.isSome)) n =
          some s ∧
        specCompare (some (.resource l)) (some (.resource s)) = true) ∧
    (∀ n, SyncEvent.delete n ∉
        (mode2DataSyncer specCompare syncLegacyBig syncStorageEmpty "res" lockRuns id).trace) ∧
    (∀ n, n ∉ mutatedNames
        (mode2DataSyncer specCompare syncLegacyBig syncStorageEmpty "res" lockRuns id).trace →
      lastNamed ((bigLegacyItems.map storedAs).filter (fun r => r.metadata.isSome)) n =
        lastNamed (([] : Items).filter (fun r => r.metadata.isSome)) n) ∧
    (mode2DataSyncer specCompare syncLegacyBig syncStorageBigAfter "res" lockRuns
      id).outOfSync = 0 ∧
    mutatedNames
      (mode2DataSyncer specCompare syncLegacyBig syncStorageBigAfter "res" lockRuns
        id).trace = [] ∧
    (mode2DataSyncer specCompare syncLegacyBig syncStorageBigAfter "res" lockRuns
      id).everythingSynced = false ∧
    (mode2DataSyncer specCompare syncLegacyBig syncStorageBigAfter "res" lockRuns
      id).err = some errSyncLimit := by
  have hS : getList syncStorageEmpty = .ok [] := rfl
  have hL : getList syncLegacyBig = .ok bigLegacyItems := rfl
  have hS2 : getList syncStorageBigAfter = .ok (bigLegacyItems.map storedAs) := rfl
  have hlt : ([] : Items).length < maxRecordsSync := by decide
  have hperm : ∀ m : ItemsByName, (id m).Perm m := fun m => List.Perm.refl m
  have hlen : (bigLegacyItems.map storedAs).length = 1000 := by
    simp [bigLegacyItems]
  have hall : ∀ ev ∈ (mode2DataSyncer specCompare syncLegacyBig syncStorageEmpty "res"
      lockRuns id).trace, mutationFailed syncStorageEmpty ev = false := by
    intro ev _
    cases ev <;> rfl
  obtain ⟨hsynced, hnoerr⟩ := syncer_synced_of_no_failure specCompare syncLegacyBig
    syncStorageEmpty "res" lockRuns id bigLegacyItems [] rfl hS hlt hL hperm hall
  have herr : (mode2DataSyncer specCompare syncLegacyBig syncStorageEmpty "res" lockRuns
      id).err = none := by
    unfold mode2DataSyncer
    rw [hS, hL]
    simp [lockRuns, maxRecordsSync]
  have hP2 : mode2DataSyncer specCompare syncLegacyBig syncStorageBigAfter "res" lockRuns id =
      ⟨false, some errSyncLimit, 0, 0, 0, [SyncEvent.list .storage maxRecordsSync]⟩ := by
    unfold mode2DataSyncer
    rw [hS2]
    simp [lockRuns, maxRecordsSync, hlen]
  refine ⟨hsynced, herr, hnoerr, hL, hS, hS2, hlen, ?_, ?_, ?_, ?_, ?_, ?_, ?_⟩
  · intro n objInfo f h
    obtain ⟨mL, specL, hLn, _, _⟩ :=
      (syncer_update_mem specCompare syncLegacyBig syncStorageEmpty "res" lockRuns id
        bigLegacyItems [] rfl hS hlt hL hperm n objInfo f).mp h
    refine ⟨_, _, hLn, ?_, specCompare_storedAs _⟩
    rw [lastNamed_map_storedAs, hLn]
    rfl
  · intro n h
    obtain ⟨_, hs⟩ :=
      (syncer_delete_mem specCompare syncLegacyBig syncStorageEmpty "res" lockRuns id
        bigLegacyItems [] rfl hS hlt hL hperm n).mp h
    simp [lastNamed] at hs
  · intro n hn
    rw [lastNamed_map_storedAs]
    cases hLn : lastNamed (bigLegacyItems.filter (fun r => r.metadata.isSome)) n with
    | none => rfl
    | some l =>
      exfalso
      obtain ⟨mL, specL, rfl, _, _⟩ := lastNamed_filter_meta bigLegacyItems n l hLn
      apply hn
      rw [mem_mutatedNames]
      left
      exact ⟨_, true, (syncer_update_mem specCompare syncLegacyBig syncStorageEmpty "res"
        lockRuns id bigLegacyItems [] rfl hS hlt hL hperm n _ true).mpr
        ⟨mL, specL, hLn, rfl, Or.inl ⟨rfl, rfl⟩⟩⟩
  · rw [hP2]
  · rw [hP2]
    rfl
  · rw [hP2]
  · rw [hP2]
